import Mathlib

/-!
# REX rule engine: a shallow embedding of the preprocessor and bytecode VM

This file embeds, in Lean 4, the parts of the REX rule-evaluation system
(`rgehrsitz/rex`) that the specification's claims are about:

* the rule data model (`internal/rules/rule.go`),
* the validating parser (`internal/preprocessor/parser.go`),
* the rule optimizer (`OptimizeRules` / `mergeRules` / `prioritizeRules` /
  `simplifyConditions` / `conditionsKey` and their helpers),
* the context-based bytecode compiler (the `compiler.go` draft whose
  `Compiler` carries a `RuleEngineContext`, unique labels and
  `jumpsNeedingLabels`),
* the legacy bytecode compiler (`internal/preprocessor/bytecode/compiler.go`,
  the draft whose `Compiler.generateHeader` emits the 12-byte header), and
* the bytecode virtual machine (`runtime.go`, the `VM.Run` variant that
  skips a 12-byte header and pre-decodes operands).

Go programs manipulate mutable state; here that state is passed explicitly.
Pointers to `Rule` objects are modelled by indices into an explicit heap
(`List Rule`), so that in-place mutation of a rule is visible as a change of
the heap entry.  Go's `interface{}` values are modelled by the tagged type
`GoValue` whose constructors record the dynamic Go type (`int`, `int64`,
`float64`, `string`, `bool`); `float64` values are modelled by the integers
they hold, which covers every value the claims exercise, and type assertions
are modelled by matching on the constructor.  Machine integers are `Nat`/`Int`
with explicit `% 2 ^ w` where overflow matters.  Fallible Go code returns
`Except`; `log.Fatal` and `panic` in the compilers are modelled as `Except`
errors, and panics inside `VM.Run` (which its `recover` block re-raises as a
`VMError`) are a distinguished `VmOutcome` constructor.
-/

namespace Rex

/-- A Go `interface{}` scalar as it flows through the rule pipeline.  The
constructor records the dynamic Go type: JSON unmarshalling produces
`float64` / `string` / `bool`; the validator's narrowing produces `int64`;
a Go `int` can only arrive from hand-constructed rules.  A `float64` is
modelled by the integer it holds (every float the pipeline's claims exercise
is integral); this keeps the `%T` type switches of the source exact. -/
inductive GoValue where
  | vInt (n : Int)
  | vInt64 (n : Int)
  | vFloat (n : Int)
  | vStr (s : String)
  | vBool (b : Bool)
deriving DecidableEq, Repr

/-- `rules.Condition`: a single struct with leaf fields and optional nested
`all`/`any` lists (`internal/rules/rule.go`). -/
inductive Condition where
  | mk (fact : String) (operator : String) (value : GoValue)
       (valueType : String) (all : List Condition) (any : List Condition)

def Condition.fact : Condition → String
  | .mk f _ _ _ _ _ => f

def Condition.operator : Condition → String
  | .mk _ o _ _ _ _ => o

def Condition.value : Condition → GoValue
  | .mk _ _ v _ _ _ => v

def Condition.valueType : Condition → String
  | .mk _ _ _ t _ _ => t

def Condition.all : Condition → List Condition
  | .mk _ _ _ _ a _ => a

def Condition.any : Condition → List Condition
  | .mk _ _ _ _ _ a => a

mutual

def condDecEq : (a b : Condition) → Decidable (a = b)
  | .mk f1 o1 v1 t1 l1 y1, .mk f2 o2 v2 t2 l2 y2 =>
    haveI : Decidable (l1 = l2) := condListDecEq l1 l2
    haveI : Decidable (y1 = y2) := condListDecEq y1 y2
    decidable_of_iff (f1 = f2 ∧ o1 = o2 ∧ v1 = v2 ∧ t1 = t2 ∧ l1 = l2 ∧ y1 = y2)
      (by constructor
          · rintro ⟨rfl, rfl, rfl, rfl, rfl, rfl⟩; rfl
          · intro h
            injection h with h1 h2 h3 h4 h5 h6
            exact ⟨h1, h2, h3, h4, h5, h6⟩)

def condListDecEq : (a b : List Condition) → Decidable (a = b)
  | [], [] => isTrue rfl
  | [], _ :: _ => isFalse (by simp)
  | _ :: _, [] => isFalse (by simp)
  | a :: as, b :: bs =>
    haveI : Decidable (a = b) := condDecEq a b
    haveI : Decidable (as = bs) := condListDecEq as bs
    decidable_of_iff (a = b ∧ as = bs)
      (by constructor
          · rintro ⟨rfl, rfl⟩; rfl
          · intro h
            injection h with h1 h2
            exact ⟨h1, h2⟩)

end

instance : DecidableEq Condition := condDecEq

/-- `rules.Conditions`: the root of a rule's boolean tree. -/
structure Conditions where
  all : List Condition
  any : List Condition
deriving DecidableEq

/-- `rules.Action`. -/
structure Action where
  type : String
  target : String
  value : GoValue
deriving DecidableEq, Repr

/-- `rules.Event` (the `CustomProperty`/`Facts`/`Values` passthrough fields
are omitted: no claim and no embedded function reads them). -/
structure Event where
  eventType : String
  actions : List Action
deriving DecidableEq, Repr

/-- `rules.Rule`. -/
structure Rule where
  name : String
  priority : Int
  conditions : Conditions
  event : Event
  producedFacts : List String
  consumedFacts : List String
deriving DecidableEq

end Rex

namespace Rex

/-! ## The validating parser (`internal/preprocessor/parser.go`)

`ParseRule` unmarshals JSON and then validates; the JSON step is external
I/O (out of the embedding's scope), so the embedding starts at the validation
of an already-built `Rule`.  Error messages keep the `fmt.Errorf` format
strings of the source without the interpolated `%v`/`%s` payloads; no claim
inspects the payloads. -/

/-- `getTypeString` (parser.go).  Go `int`/`int32`/`int64` report `"int"`;
a `float64` reports `"int"` when its fractional part is zero, which is the
case for every `float64` the model represents, and `"float"` otherwise; the
`default: "unknown"` branch is unreachable over the modelled value universe
because `GoValue` covers exactly the dynamic types the pipeline produces. -/
def getTypeString : GoValue → String
  | .vInt _ => "int"
  | .vInt64 _ => "int"
  | .vFloat _ => "int"
  | .vStr _ => "string"
  | .vBool _ => "bool"

/-- `isOperatorValidForType` (parser.go): the operator/type table. -/
def isOperatorValidForType (operator valueType : String) : Bool :=
  let validOperators : List String :=
    if valueType = "int" then
      ["equal", "notEqual", "lessThan", "lessThanOrEqual", "greaterThan", "greaterThanOrEqual"]
    else if valueType = "float" then
      ["equal", "notEqual", "lessThan", "lessThanOrEqual", "greaterThan", "greaterThanOrEqual"]
    else if valueType = "string" then
      ["equal", "notEqual", "contains", "notContains"]
    else if valueType = "bool" then
      ["equal", "notEqual"]
    else []
  validOperators.any (· == operator)

/-- `NormalizeOperator` with the `operatorAliases` map (parser.go). -/
def NormalizeOperator (operator : String) : String :=
  if operator = "=" then "equal"
  else if operator = "!=" then "notEqual"
  else if operator = "<" then "lessThan"
  else if operator = "<=" then "lessThanOrEqual"
  else if operator = ">" then "greaterThan"
  else if operator = ">=" then "greaterThanOrEqual"
  else operator

/-- `equalCondition` (the active definition): compares only the leaf fields;
nested `all`/`any` are ignored (the recursive variant is commented out in the
source).  `reflect.DeepEqual` on tagged scalars is structural equality. -/
def equalConditionGo (c1 c2 : Condition) : Bool :=
  c1.fact == c2.fact && c1.operator == c2.operator &&
  c1.valueType == c2.valueType && c1.value == c2.value

/-- `compareValuesForEquality` (parser.go): both sides must satisfy the
type assertion selected by `valueType`, else `false`. -/
def compareValuesForEquality (v1 v2 : GoValue) (valueType : String) : Bool :=
  if valueType = "int" then
    match v1, v2 with
    | .vFloat a, .vFloat b => a == b
    | _, _ => false
  else if valueType = "float" then
    match v1, v2 with
    | .vFloat a, .vFloat b => a == b
    | _, _ => false
  else if valueType = "string" then
    match v1, v2 with
    | .vStr a, .vStr b => a == b
    | _, _ => false
  else if valueType = "bool" then
    match v1, v2 with
    | .vBool a, .vBool b => a == b
    | _, _ => false
  else false

/-- `isContradictory` (parser.go). -/
def isContradictory (c1 c2 : Condition) : Bool :=
  if c1.fact ≠ c2.fact then false
  else
    let valueType := if c1.valueType = "" then getTypeString c1.value else c1.valueType
    if c1.operator = "equal" then
      c2.operator == "notEqual" && c1.value == c2.value
    else if c1.operator = "notEqual" then
      c2.operator == "equal" && c1.value == c2.value
    else if c1.operator = "lessThan" then
      c2.operator == "greaterThanOrEqual" && compareValuesForEquality c1.value c2.value valueType
    else if c1.operator = "lessThanOrEqual" then
      c2.operator == "greaterThan" && compareValuesForEquality c1.value c2.value valueType
    else if c1.operator = "greaterThan" then
      c2.operator == "lessThanOrEqual" && compareValuesForEquality c2.value c1.value valueType
    else if c1.operator = "greaterThanOrEqual" then
      c2.operator == "lessThan" && compareValuesForEquality c2.value c1.value valueType
    else false

/-- `isAmbiguous` (parser.go). -/
def isAmbiguous (c1 c2 : Condition) : Bool :=
  c1.fact == c2.fact && c1.operator == c2.operator && c1.valueType == c2.valueType &&
  !(c1.value == c2.value)

/-- The `for i; for j > i` double loop shared by `hasRedundantConditions`,
`hasContradictoryConditions` and (after grouping) `hasAmbiguousConditions`. -/
def pairsExist (p : Condition → Condition → Bool) : List Condition → Bool
  | [] => false
  | x :: xs => xs.any (p x) || pairsExist p xs

/-- `hasRedundantConditions` (parser.go). -/
def hasRedundantConditions (conditions : List Condition) : Bool :=
  pairsExist equalConditionGo conditions

/-- `hasContradictoryConditions` (parser.go). -/
def hasContradictoryConditions (conditions : List Condition) : Bool :=
  pairsExist isContradictory conditions

/-- `hasAmbiguousConditions` (parser.go).  The source groups conditions by
fact in a map and tests pairs inside each group; since `isAmbiguous` itself
requires equal facts and grouping preserves relative order, this equals the
plain pairwise test, and the boolean OR over groups makes the map's
iteration order irrelevant. -/
def hasAmbiguousConditions (conditions : List Condition) : Bool :=
  pairsExist isAmbiguous conditions

mutual

/-- `validateCondition` (parser.go).  The Go function mutates the condition
through its pointer (`ValueType` inference, `Value` narrowing to `int64`);
the embedding threads the updated value/type locally — each call site passes
a copy (`for _, cond := range …`), so the updates are invisible to callers
in the source as well. -/
def validateConditionGo : Condition → Except String Unit
  | .mk fact operator value valueType condAll condAny =>
    -- Infer and assign ValueType if not explicitly provided.
    let step1 : Except String (GoValue × String) :=
      if valueType = "" then
        let inferredType := getTypeString value
        if inferredType = "int" then
          match value with
          | .vFloat n => .ok (.vInt64 n, inferredType)
          | _ => .error "invalid value for int type"
        else if inferredType = "float" then .ok (value, inferredType)
        else if inferredType = "string" then .ok (value, inferredType)
        else if inferredType = "bool" then .ok (value, inferredType)
        else .error "unsupported value type"
      else .ok (value, valueType)
    match step1 with
    | .error e => .error e
    | .ok (value1, valueType1) =>
      -- Skip direct type and operator validation for nesting-only conditions.
      if fact = "" ∧ (condAll ≠ [] ∨ condAny ≠ []) then
        match validateNestedConditionsGo condAll with
        | .error e => .error e
        | .ok _ => validateNestedConditionsGo condAny
      else
        -- Validate based on the explicit ValueType (or re-infer; the
        -- re-inference branch is dead after step 1 but kept for fidelity).
        let step3 : Except String String :=
          if valueType1 ≠ "" then
            if valueType1 ≠ getTypeString value1 then
              .error "ValueType does not match the type of Value"
            else .ok valueType1
          else
            let t := getTypeString value1
            if t = "" then .error "unsupported or missing type of Value" else .ok t
        match step3 with
        | .error e => .error e
        | .ok valueType2 =>
          if fact = "" ∧ condAll = [] ∧ condAny = [] then
            .error "missing 'fact' in condition"
          else
            let canonicalOperator := NormalizeOperator operator
            if !isOperatorValidForType canonicalOperator valueType2 then
              .error "unsupported operation for type"
            else
              match validateNestedConditionsGo condAll with
              | .error e => .error e
              | .ok _ => validateNestedConditionsGo condAny

/-- `validateNestedConditions` (parser.go): first error wins. -/
def validateNestedConditionsGo : List Condition → Except String Unit
  | [] => .ok ()
  | c :: cs =>
    match validateConditionGo c with
    | .error e => .error e
    | .ok _ => validateNestedConditionsGo cs

end

/-- `validateConditions` (parser.go): per-condition validation of both root
lists (the same loop shape as `validateNestedConditions`), then the
redundancy / contradiction / ambiguity checks. -/
def validateConditionsGo (conds : Conditions) : Except String Unit :=
  match validateNestedConditionsGo conds.all with
  | .error e => .error e
  | .ok _ =>
    match validateNestedConditionsGo conds.any with
    | .error e => .error e
    | .ok _ =>
      if hasRedundantConditions conds.all then .error "redundant conditions found in 'All' block"
      else if hasRedundantConditions conds.any then .error "redundant conditions found in 'Any' block"
      else if hasContradictoryConditions conds.all then .error "contradictory conditions found in 'All' block"
      else if hasContradictoryConditions conds.any then .error "contradictory conditions found in 'Any' block"
      else if hasAmbiguousConditions conds.any then .error "ambiguous conditions found in 'Any' block"
      else .ok ()

/-- `ParseRule` after JSON unmarshalling: a rule must have a condition, and
its condition tree must validate. -/
def parseRuleValidate (r : Rule) : Except String Unit :=
  if r.conditions.all = [] ∧ r.conditions.any = [] then
    .error "a rule must have at least one condition"
  else validateConditionsGo r.conditions

/-- The value type a leaf is validated against: the explicit `valueType`, or
the inferred one when absent (the assignment at the top of
`validateCondition`). -/
def effectiveValueType (c : Condition) : String :=
  if c.valueType = "" then getTypeString c.value else c.valueType

mutual

/-- A condition occurs in a condition tree: it is the node itself, or it
occurs in the node's nested `all`/`any` lists — exactly the tree that the
`validateCondition` / `validateNestedConditions` recursion walks. -/
def condOccurs (c : Condition) : Condition → Bool
  | .mk f o v t condAll condAny =>
    decide (c = .mk f o v t condAll condAny) || condOccursList c condAll ||
      condOccursList c condAny

/-- A condition occurs in some tree of a list. -/
def condOccursList (c : Condition) : List Condition → Bool
  | [] => false
  | d :: ds => condOccurs c d || condOccursList c ds

end

end Rex

namespace Rex

lemma validateConditionGo_error_of_invalid_op (c : Condition) (hf : c.fact ≠ "")
    (hop : isOperatorValidForType (NormalizeOperator c.operator) (effectiveValueType c) = false) :
    ∃ e, validateConditionGo c = .error e := by
  obtain ⟨f, o, v, t, condAll, condAny⟩ := c
  simp only [Condition.fact, Condition.operator, Condition.value, Condition.valueType,
    effectiveValueType] at hf hop
  have hfand : ¬ (f = "" ∧ (condAll ≠ [] ∨ condAny ≠ [])) := fun h => hf h.1
  rw [validateConditionGo]
  by_cases ht : t = ""
  · rw [if_pos ht] at hop
    rw [if_pos ht]
    cases v with
    | vInt n => exact ⟨_, rfl⟩
    | vInt64 n => exact ⟨_, rfl⟩
    | vFloat n =>
      simp only [getTypeString] at hop
      simp [getTypeString, hfand, hop]
      rw [if_neg (fun h => hf h.1)]
      exact ⟨_, rfl⟩
    | vStr s =>
      simp only [getTypeString] at hop
      simp [getTypeString, hfand, hop]
      rw [if_neg (fun h => hf h.1)]
      exact ⟨_, rfl⟩
    | vBool b =>
      simp only [getTypeString] at hop
      simp [getTypeString, hfand, hop]
      rw [if_neg (fun h => hf h.1)]
      exact ⟨_, rfl⟩
  · rw [if_neg ht] at hop
    rw [if_neg ht]
    dsimp only
    rw [if_neg hfand, if_pos ht]
    by_cases hm : t = getTypeString v
    · rw [if_neg (not_not_intro hm)]
      dsimp only
      rw [if_neg (fun h => hf h.1), hop]
      exact ⟨_, rfl⟩
    · rw [if_pos hm]
      exact ⟨_, rfl⟩

end Rex

namespace Rex

lemma validateNestedConditionsGo_error_of_mem {l : List Condition} {c : Condition}
    (hmem : c ∈ l) (hc : ∃ e, validateConditionGo c = .error e) :
    ∃ e, validateNestedConditionsGo l = .error e := by
  induction l with
  | nil => cases hmem
  | cons a as ih =>
    rw [validateNestedConditionsGo]
    cases ha : validateConditionGo a with
    | error e => exact ⟨e, rfl⟩
    | ok u =>
      rcases List.mem_cons.mp hmem with rfl | hmem2
      · obtain ⟨e, he⟩ := hc
        rw [ha] at he
        cases he
      · exact ih hmem2

/-- An error in either nested list makes `validateCondition` fail on the
node: every branch of the function ends in the two nested-list checks (or
errors even earlier). -/
lemma validateConditionGo_error_of_nested (f o : String) (v : GoValue) (t : String)
    (condAll condAny : List Condition)
    (h : (∃ e, validateNestedConditionsGo condAll = .error e) ∨
         (∃ e, validateNestedConditionsGo condAny = .error e)) :
    ∃ e, validateConditionGo (.mk f o v t condAll condAny) = .error e := by
  rw [validateConditionGo]
  cases hall : validateNestedConditionsGo condAll with
  | error e =>
    dsimp only
    split
    · exact ⟨_, rfl⟩
    · split
      · exact ⟨e, rfl⟩
      · split
        · exact ⟨_, rfl⟩
        · split
          · exact ⟨_, rfl⟩
          · split
            · exact ⟨_, rfl⟩
            · exact ⟨e, rfl⟩
  | ok u =>
    have hany : ∃ e, validateNestedConditionsGo condAny = .error e := by
      rcases h with ⟨e, he⟩ | hout
      · rw [he] at hall
        cases hall
      · exact hout
    obtain ⟨e2, he2⟩ := hany
    dsimp only
    split
    · exact ⟨_, rfl⟩
    · split
      · exact ⟨e2, he2⟩
      · split
        · exact ⟨_, rfl⟩
        · split
          · exact ⟨_, rfl⟩
          · split
            · exact ⟨_, rfl⟩
            · exact ⟨e2, he2⟩

mutual

/-- An invalid leaf anywhere in a condition tree makes `validateCondition`
fail on the tree's root: at the root by the leaf lemma, and below it
because nested-list errors propagate up. -/
lemma condOccurs_error (c : Condition) (hf : c.fact ≠ "")
    (hop : isOperatorValidForType (NormalizeOperator c.operator) (effectiveValueType c) = false) :
    (d : Condition) → condOccurs c d = true → ∃ e, validateConditionGo d = .error e
  | .mk f o v t condAll condAny, hocc => by
    rw [condOccurs] at hocc
    rw [Bool.or_eq_true, Bool.or_eq_true] at hocc
    rcases hocc with (h1 | h2) | h3
    · have hcd : c = Condition.mk f o v t condAll condAny := of_decide_eq_true h1
      rw [← hcd]
      exact validateConditionGo_error_of_invalid_op c hf hop
    · exact validateConditionGo_error_of_nested f o v t condAll condAny
        (Or.inl (condOccursList_error c hf hop condAll h2))
    · exact validateConditionGo_error_of_nested f o v t condAll condAny
        (Or.inr (condOccursList_error c hf hop condAny h3))

/-- An invalid leaf anywhere in some tree of a list makes
`validateNestedConditions` fail on the list (the first error wins, but
some error is always reached). -/
lemma condOccursList_error (c : Condition) (hf : c.fact ≠ "")
    (hop : isOperatorValidForType (NormalizeOperator c.operator) (effectiveValueType c) = false) :
    (l : List Condition) → condOccursList c l = true → ∃ e, validateNestedConditionsGo l = .error e
  | [], hocc => by simp [condOccursList] at hocc
  | d :: ds, hocc => by
    rw [condOccursList] at hocc
    rw [validateNestedConditionsGo]
    cases hd : validateConditionGo d with
    | error e => exact ⟨e, rfl⟩
    | ok u =>
      rw [Bool.or_eq_true] at hocc
      rcases hocc with h1 | h2
      · obtain ⟨e, he⟩ := condOccurs_error c hf hop d h1
        rw [he] at hd
        cases hd
      · exact condOccursList_error c hf hop ds h2

end

/-- C8: every condition whose canonicalized operator is invalid for its
effective value type — at the top level of either root list or at any
nesting depth, which the `condOccursList` predicate captures along the
exact recursion `validateCondition` / `validateNestedConditions` walks —
makes `validateConditions` fail, so the rule is rejected at validation. -/
theorem C8_thm (conds : Conditions) (c : Condition)
    (hmem : condOccursList c conds.all = true ∨ condOccursList c conds.any = true)
    (hf : c.fact ≠ "")
    (hop : isOperatorValidForType (NormalizeOperator c.operator) (effectiveValueType c) = false) :
    ∃ e, validateConditionsGo conds = .error e := by
  rw [validateConditionsGo]
  cases hall : validateNestedConditionsGo conds.all with
  | error e => exact ⟨e, rfl⟩
  | ok u =>
    rcases hmem with hm | hm
    · obtain ⟨e, he⟩ := condOccursList_error c hf hop conds.all hm
      rw [he] at hall
      cases hall
    · cases hany : validateNestedConditionsGo conds.any with
      | error e => exact ⟨e, rfl⟩
      | ok u2 =>
        obtain ⟨e, he⟩ := condOccursList_error c hf hop conds.any hm
        rw [he] at hany
        cases hany

/-- The spec's example leaf: `lessThan` comparing the string `"John"`. -/
def c8leaf : Condition := .mk "name" "lessThan" (.vStr "John") "" [] []

/-- A nesting-only condition (empty fact, nonempty `all`) holding `c8leaf`
one level down. -/
def c8nest : Condition := .mk "" "" (.vBool true) "" [c8leaf] []

/-- C8 witness: the `lessThan`-on-string leaf is rejected both as a
top-level condition and nested one level inside an `all` block. -/
theorem C8_wit :
    condOccursList c8leaf [c8leaf] = true ∧
    condOccursList c8leaf [c8nest] = true ∧
    c8leaf.fact ≠ "" ∧
    isOperatorValidForType (NormalizeOperator c8leaf.operator) (effectiveValueType c8leaf) = false ∧
    (∃ e, validateConditionsGo ⟨[c8leaf], []⟩ = .error e) ∧
    (∃ e, validateConditionsGo ⟨[c8nest], []⟩ = .error e) :=
  ⟨by decide, by decide, by decide, by decide,
    C8_thm ⟨[c8leaf], []⟩ c8leaf (Or.inl (by decide)) (by decide) (by decide),
    C8_thm ⟨[c8nest], []⟩ c8leaf (Or.inl (by decide)) (by decide) (by decide)⟩

end Rex

namespace Rex

/-! ## The optimizer (`OptimizeRules` and helpers)

Embeds the complete optimizer variant — the one whose `conditionsKey`
JSON-serializes normalized conditions and SHA-256-hashes them, whose
`mergeRules` merges via a `map[string]*Rule`, and whose
`simplifyConditions` is implemented (the two other drafts in the tree are
stubs).  `[]*Rule` values are modelled as indices into an explicit heap
(`List Rule`); writing through a pointer becomes `List.set` on the heap. -/

/-- `compareValues` (optimizer): a type-switch comparator.  `"int"` asserts
the Go type `int` — which JSON-parsed values (`float64`, narrowed to
`int64` by the validator) never satisfy — so both asserts fail and the
comparator returns `false` for pipeline-produced int values; the spec's
design notes call out exactly this non-total order. -/
def compareValues (v1 v2 : GoValue) (valueType : String) : Bool :=
  if valueType = "int" then
    match v1, v2 with
    | .vInt a, .vInt b => a < b
    | _, _ => false
  else if valueType = "float" then
    match v1, v2 with
    | .vFloat a, .vFloat b => a < b
    | _, _ => false
  else if valueType = "string" then
    match v1, v2 with
    | .vStr a, .vStr b => a < b
    | _, _ => false
  else if valueType = "bool" then
    match v1, v2 with
    | .vBool a, .vBool b => !a && b
    | _, _ => false
  else false

/-- The `less` closure passed to `sort.SliceStable` in `sortConditions`. -/
def condLt (c1 c2 : Condition) : Bool :=
  if c1.fact ≠ c2.fact then decide (c1.fact < c2.fact)
  else if c1.operator ≠ c2.operator then decide (c1.operator < c2.operator)
  else if c1.valueType ≠ c2.valueType then decide (c1.valueType < c2.valueType)
  else compareValues c1.value c2.value c1.valueType

/-- One step of a stable insertion sort: `x` is placed before the first
element strictly greater than it (`lt x y`), after all elements it ties
with — the order `sort.SliceStable` guarantees. -/
def insertIf (lt : α → α → Bool) (x : α) : List α → List α
  | [] => [x]
  | y :: ys => if lt x y then x :: y :: ys else y :: insertIf lt x ys

/-- `sort.SliceStable less`: elements in `less`-order, ties in input order.
For a strict-weak-order `less` (every comparator this file instantiates)
this is exactly the stable sort the Go library computes. -/
def stableSortBy (lt : α → α → Bool) (l : List α) : List α :=
  l.foldl (fun acc x => insertIf lt x acc) []

mutual

/-- Element-wise nested normalization inside `sortConditions`: conditions
carrying nested blocks get those blocks normalized recursively. -/
def normCondList : List Condition → List Condition
  | [] => []
  | c :: cs => normCondElem c :: normCondList cs

def normCondElem : Condition → Condition
  | .mk f o v t nestedAll nestedAny =>
    if nestedAll.length > 0 || nestedAny.length > 0 then
      .mk f o v t (stableSortBy condLt (normCondList nestedAll))
        (stableSortBy condLt (normCondList nestedAny))
    else .mk f o v t nestedAll nestedAny

end

/-- `sortConditions` (optimizer).  The source stably sorts the slice first
and then rewrites each element's nested blocks in place; since the
comparator `condLt` never reads the nested blocks, sorting after the
element-wise rewrite produces the identical list, which is the order used
here so that the recursion is structural. -/
def sortConditionsGo (l : List Condition) : List Condition :=
  stableSortBy condLt (normCondList l)

/-- `normalizeConditions` (optimizer). -/
def normalizeConditionsGo (c : Conditions) : Conditions :=
  ⟨sortConditionsGo c.all, sortConditionsGo c.any⟩

/-- JSON string literal; the names and scalar strings the development uses
need no escaping. -/
def jsonString (s : String) : String := "\"" ++ s ++ "\""

/-- `encoding/json` marshalling of an `interface{}` scalar.  An integral
`float64` marshals without a decimal point — indistinguishable from the
same `int`/`int64`, exactly as in Go. -/
def jsonValue : GoValue → String
  | .vInt n => toString n
  | .vInt64 n => toString n
  | .vFloat n => toString n
  | .vStr s => jsonString s
  | .vBool b => if b then "true" else "false"

mutual

def jsonCondList : List Condition → String
  | [] => ""
  | [c] => jsonCondition c
  | c :: cs => jsonCondition c ++ "," ++ jsonCondList cs

/-- `json.Marshal` of a `rules.Condition`: fields in struct order with their
tags; `valueType`, `all`, `any` carry `omitempty`. -/
def jsonCondition : Condition → String
  | .mk f o v t nestedAll nestedAny =>
    "\x7b\"fact\":" ++ jsonString f ++ ",\"operator\":" ++ jsonString o ++
    ",\"value\":" ++ jsonValue v ++
    (if t = "" then "" else ",\"valueType\":" ++ jsonString t) ++
    (if nestedAll = [] then "" else ",\"all\":[" ++ jsonCondList nestedAll ++ "]") ++
    (if nestedAny = [] then "" else ",\"any\":[" ++ jsonCondList nestedAny ++ "]") ++ "\x7d"

end

/-- `json.Marshal` of `rules.Conditions` (both fields `omitempty`). -/
def jsonConditions (c : Conditions) : String :=
  let parts :=
    (if c.all = [] then [] else ["\"all\":[" ++ jsonCondList c.all ++ "]"]) ++
    (if c.any = [] then [] else ["\"any\":[" ++ jsonCondList c.any ++ "]"])
  "\x7b" ++ String.intercalate "," parts ++ "\x7d"

/-- `conditionsKey` (optimizer): normalize, JSON-serialize, hash.  The
SHA-256 hex digest only serves as a map key; treating the hash as injective
(its design contract), the canonical serialization itself is the key here.
The `error` return is impossible (`json.Marshal` cannot fail on these
structs) and its caller discards it (`key, _ :=`), so the embedding is
total. -/
def conditionsKeyGo (conds : Conditions) : String :=
  jsonConditions (normalizeConditionsGo conds)

/-- `containsCondition` (optimizer). -/
def containsConditionGo (conditions : List Condition) (condition : Condition) : Bool :=
  conditions.any (fun c => equalConditionGo c condition)

/-- `canBeSimplified` (optimizer): some pair of `all`-entries shares a fact. -/
def canBeSimplified (condition : Condition) : Bool :=
  condition.all.length ≥ 2 && pairsExist (fun c1 c2 => c1.fact == c2.fact) condition.all

/-- The `seenFacts` loop of `performLogicalSimplification`: keep the first
condition for each fact. -/
def dedupByFactAux : List Condition → List String → List Condition
  | [], _ => []
  | c :: cs, seen =>
    if seen.contains c.fact then dedupByFactAux cs seen
    else c :: dedupByFactAux cs (c.fact :: seen)

/-- `performLogicalSimplification` (optimizer): drops later `all`-entries
whose fact was already seen — regardless of operator or value. -/
def performLogicalSimplification (condition : Condition) : Condition :=
  match condition with
  | .mk f o v t nestedAll nestedAny => .mk f o v t (dedupByFactAux nestedAll []) nestedAny

mutual

/-- The loop body of `simplifyAndDedupConditions` with its accumulator. -/
def simplifyAndDedupAux : List Condition → List Condition → List Condition
  | [], acc => acc
  | c :: cs, acc =>
    let sc := simplifyConditionGo c
    if containsConditionGo acc sc then simplifyAndDedupAux cs acc
    else simplifyAndDedupAux cs (acc ++ [sc])

/-- `simplifyCondition` (optimizer). -/
def simplifyConditionGo : Condition → Condition
  | .mk f o v t nestedAll nestedAny =>
    let simplified : Condition :=
      .mk f o v t (simplifyAndDedupAux nestedAll []) (simplifyAndDedupAux nestedAny [])
    if canBeSimplified simplified then performLogicalSimplification simplified
    else simplified

end

/-- `simplifyAndDedupConditions` (optimizer). -/
def simplifyAndDedupConditions (conditions : List Condition) : List Condition :=
  simplifyAndDedupAux conditions []

/-- `simplifyRuleConditions` (optimizer). -/
def simplifyRuleConditionsGo (c : Conditions) : Conditions :=
  ⟨simplifyAndDedupConditions c.all, simplifyAndDedupConditions c.any⟩

/-- `equalConditions` (optimizer): length checks plus element-wise
`equalCondition`. -/
def equalCondListGo : List Condition → List Condition → Bool
  | [], [] => true
  | a :: as, b :: bs => equalConditionGo a b && equalCondListGo as bs
  | _, _ => false

def equalConditionsGo (x y : Conditions) : Bool :=
  equalCondListGo x.all y.all && equalCondListGo x.any y.any

/-! ### The heap-based pipeline

A `Heap` is the set of live `rules.Rule` objects; a `[]*Rule` slice is a
`List Nat` of heap indices. -/

abbrev Heap := List Rule

/-- `getRulePriority` (optimizer): `nil` pointers read as priority 0. -/
def getRulePriority (heap : Heap) (i : Nat) : Int :=
  ((heap.get? i).map Rule.priority).getD 0

/-- One iteration of the `mergeRules` loop.  Computing `conditionsKey`
sorts the rule's condition slices in place (`sort.SliceStable` mutates the
backing array shared with the rule), so the heap entry is rewritten to its
normalized form; a key hit then appends the current rule's actions and
fact lists onto the earlier rule object. -/
def mergeStep (st : Heap × List (String × Nat)) (i : Nat) : Heap × List (String × Nat) :=
  let heap := st.1
  let assoc := st.2
  match heap.get? i with
  | none => st
  | some rule =>
    let key := conditionsKeyGo rule.conditions
    let rule1 := { rule with conditions := normalizeConditionsGo rule.conditions }
    let heap1 := heap.set i rule1
    match assoc.lookup key with
    | some j =>
      match heap1.get? j with
      | none => (heap1, assoc)
      | some existing =>
        (heap1.set j
          { existing with
            event := { existing.event with
              actions := existing.event.actions ++ rule1.event.actions },
            producedFacts := existing.producedFacts ++ rule1.producedFacts,
            consumedFacts := existing.consumedFacts ++ rule1.consumedFacts },
          assoc)
    | none => (heap1, assoc ++ [(key, i)])

/-- The `mergeRules` loop over the input slice, plus the `mergedRules` map
in insertion order: one `(key, survivor)` entry per distinct signature. -/
def mergeRulesCore (heap : Heap) : Heap × List (String × Nat) :=
  (List.range heap.length).foldl mergeStep (heap, [])

/-- Emit positions `order` of a list — the shape of a Go `for … range` over
a map whose iteration order is the permutation `order` (Go leaves that
order unspecified and randomizes it between runs). -/
def applyPerm (order : List Nat) (l : List Nat) : List Nat :=
  order.filterMap l.get?

/-- `mergeRules` with the map-iteration order made explicit. -/
def mergeRulesGo (order : List Nat) (heap : Heap) : Heap × List Nat :=
  let r := mergeRulesCore heap
  (r.1, applyPerm order (r.2.map Prod.snd))

/-- `mergeRules` under insertion-order iteration — the deterministic
reference instance of `mergeRulesGo`. -/
def mergeRulesDet (heap : Heap) : Heap × List Nat :=
  let r := mergeRulesCore heap
  (r.1, r.2.map Prod.snd)

/-- `prioritizeRules` (optimizer): copies the pointer slice and stable-sorts
it by priority descending; rule objects are untouched. -/
def prioritizeRulesGo (heap : Heap) (ids : List Nat) : List Nat :=
  stableSortBy (fun i j => decide (getRulePriority heap i > getRulePriority heap j)) ids

/-- One iteration of `simplifyConditions`: a changed condition tree makes a
fresh `Rule` object (heap append); an unchanged one keeps the pointer. -/
def simplifyStep (heap : Heap) (i : Nat) : Heap × Nat :=
  match heap.get? i with
  | none => (heap, i)
  | some rule =>
    let simplified := simplifyRuleConditionsGo rule.conditions
    if !equalConditionsGo simplified rule.conditions then
      (heap ++ [{ rule with conditions := simplified }], heap.length)
    else (heap, i)

/-- `simplifyConditions` (optimizer), heap-level. -/
def simplifyConditionsHeap (heap : Heap) (ids : List Nat) : Heap × List Nat :=
  ids.foldl
    (fun st i =>
      let r := simplifyStep st.1 i
      (r.1, st.2 ++ [r.2]))
    (heap, [])

/-- `OptimizeRules` (optimizer): merge, prioritize, simplify;
`precomputeExpressions` and `analyzeDependencies` are identity functions in
the source.  The `order` parameter is the iteration order of the
`mergedRules` map.  The error return is impossible (see `conditionsKeyGo`). -/
def OptimizeRulesGo (order : List Nat) (heap : Heap) : Heap × List Nat :=
  let m := mergeRulesGo order heap
  let ids2 := prioritizeRulesGo m.1 m.2
  simplifyConditionsHeap m.1 ids2

/-- `OptimizeRules` under insertion-order map iteration. -/
def OptimizeRulesDet (heap : Heap) : Heap × List Nat :=
  let m := mergeRulesDet heap
  let ids2 := prioritizeRulesGo m.1 m.2
  simplifyConditionsHeap m.1 ids2

/-- Dereference the output slice: the rule values the caller observes. -/
def materializeRules (p : Heap × List Nat) : List Rule :=
  p.2.filterMap p.1.get?

/-- The optimizer as a function on rule lists, with explicit map order. -/
def optimizeGoM (order : List Nat) (rules : List Rule) : List Rule :=
  materializeRules (OptimizeRulesGo order rules)

/-- The optimizer as a function on rule lists, insertion-order iteration. -/
def optimizeDetM (rules : List Rule) : List Rule :=
  materializeRules (OptimizeRulesDet rules)

end Rex

namespace Rex

/-- C4: two rules with identical canonical condition signatures merge into
a single rule: the first by input order is kept (its name and priority),
its action list is the concatenation of the two rules' action lists in
input order, and the produced/consumed fact sets are unioned (stated as a
membership union, matching the set semantics of the claim). -/
theorem C4_thm (r1 r2 : Rule)
    (h : conditionsKeyGo r1.conditions = conditionsKeyGo r2.conditions) :
    ∃ R, optimizeDetM [r1, r2] = [R] ∧ R.name = r1.name ∧ R.priority = r1.priority ∧
      R.event.actions = r1.event.actions ++ r2.event.actions ∧
      (∀ f, f ∈ R.producedFacts ↔ (f ∈ r1.producedFacts ∨ f ∈ r2.producedFacts)) ∧
      (∀ f, f ∈ R.consumedFacts ↔ (f ∈ r1.consumedFacts ∨ f ∈ r2.consumedFacts)) := by
  have h2 : mergeRulesCore [r1, r2] =
      ([{ r1 with
            conditions := normalizeConditionsGo r1.conditions,
            event := { eventType := r1.event.eventType,
                       actions := r1.event.actions ++ r2.event.actions },
            producedFacts := r1.producedFacts ++ r2.producedFacts,
            consumedFacts := r1.consumedFacts ++ r2.consumedFacts },
          { r2 with conditions := normalizeConditionsGo r2.conditions }],
        [(conditionsKeyGo r1.conditions, 0)]) := by
    show mergeStep (mergeStep ([r1, r2], []) 0) 1 = _
    have e1 : mergeStep ([r1, r2], []) 0 =
        ([{ r1 with conditions := normalizeConditionsGo r1.conditions }, r2],
          [(conditionsKeyGo r1.conditions, 0)]) := rfl
    rw [e1]
    simp only [mergeStep, List.get?_cons_succ, List.get?_cons_zero]
    rw [← h]
    simp only [List.lookup, beq_self_eq_true, if_true]
    rfl
  set M : Rule :=
    { r1 with
      conditions := normalizeConditionsGo r1.conditions,
      event := { eventType := r1.event.eventType,
                 actions := r1.event.actions ++ r2.event.actions },
      producedFacts := r1.producedFacts ++ r2.producedFacts,
      consumedFacts := r1.consumedFacts ++ r2.consumedFacts } with hM
  have h3 : optimizeDetM [r1, r2] =
      materializeRules (simplifyConditionsHeap
        [M, { r2 with conditions := normalizeConditionsGo r2.conditions }] [0]) := by
    rw [optimizeDetM, OptimizeRulesDet, mergeRulesDet, h2]
    rfl
  rw [h3]
  rw [simplifyConditionsHeap]
  simp only [List.foldl]
  rw [simplifyStep]
  simp only [List.get?]
  by_cases hs : equalConditionsGo (simplifyRuleConditionsGo M.conditions) M.conditions = true
  · rw [hs]
    refine ⟨M, ?_, rfl, rfl, rfl, ?_, ?_⟩
    · rfl
    · intro f; simp [hM, List.mem_append]
    · intro f; simp [hM, List.mem_append]
  · rw [Bool.not_eq_true] at hs
    rw [hs]
    refine ⟨{ M with conditions := simplifyRuleConditionsGo M.conditions }, ?_, rfl, rfl, rfl, ?_, ?_⟩
    · rfl
    · intro f; simp [hM, List.mem_append]
    · intro f; simp [hM, List.mem_append]

end Rex

namespace Rex

/-- A leaf condition (no nested lists). -/
def mkLeaf (f op : String) (v : GoValue) (t : String) : Condition :=
  .mk f op v t [] []

/-- Scenario-5 style rule: `all=[a equal 1]`, action `X`. -/
def demoRuleX : Rule :=
  { name := "R1", priority := 5,
    conditions := ⟨[mkLeaf "a" "equal" (.vFloat 1) "int"], []⟩,
    event := ⟨"ev", [⟨"updateFact", "x", .vBool true⟩]⟩,
    producedFacts := ["x"], consumedFacts := ["a"] }

/-- Scenario-5 style rule: same conditions as `demoRuleX`, action `Y`. -/
def demoRuleY : Rule :=
  { name := "R2", priority := 3,
    conditions := ⟨[mkLeaf "a" "equal" (.vFloat 1) "int"], []⟩,
    event := ⟨"ev", [⟨"sendMessage", "y", .vStr "hi"⟩]⟩,
    producedFacts := ["z"], consumedFacts := ["a"] }

/-- C4 witness: the merge law applied to the two demo rules, whose
canonical keys are proved equal. -/
theorem C4_wit :
    conditionsKeyGo demoRuleX.conditions = conditionsKeyGo demoRuleY.conditions ∧
    ∃ R, optimizeDetM [demoRuleX, demoRuleY] = [R] ∧ R.name = demoRuleX.name ∧
      R.priority = demoRuleX.priority ∧
      R.event.actions = demoRuleX.event.actions ++ demoRuleY.event.actions ∧
      (∀ f, f ∈ R.producedFacts ↔ (f ∈ demoRuleX.producedFacts ∨ f ∈ demoRuleY.producedFacts)) ∧
      (∀ f, f ∈ R.consumedFacts ↔ (f ∈ demoRuleX.consumedFacts ∨ f ∈ demoRuleY.consumedFacts)) :=
  ⟨by decide, C4_thm demoRuleX demoRuleY (by decide)⟩

end Rex

namespace Rex

/-! ### Generic facts about `insertIf`/`stableSortBy` -/

lemma mem_insertIf (lt : α → α → Bool) (x : α) (l : List α) (w : α) :
    w ∈ insertIf lt x l ↔ w = x ∨ w ∈ l := by
  induction l with
  | nil => simp [insertIf]
  | cons y ys ih =>
    rw [insertIf]
    by_cases h : lt x y = true
    · simp [h]
    · simp [h, ih]
      tauto

lemma insertIf_perm (lt : α → α → Bool) (x : α) (l : List α) :
    List.Perm (insertIf lt x l) (x :: l) := by
  induction l with
  | nil => simp [insertIf]
  | cons y ys ih =>
    rw [insertIf]
    by_cases h : lt x y = true
    · simp [h]
    · simp only [h, if_false]
      exact ((ih.cons y).trans (List.Perm.swap x y ys))

lemma stableSortBy_perm (lt : α → α → Bool) (l : List α) :
    List.Perm (stableSortBy lt l) l := by
  suffices h : ∀ (l acc : List α), List.Perm (l.foldl (fun a x => insertIf lt x a) acc) (acc ++ l) by
    simpa using h l []
  intro l
  induction l with
  | nil => simp
  | cons y ys ih =>
    intro acc
    have h1 : (y :: ys).foldl (fun a x => insertIf lt x a) acc =
        ys.foldl (fun a x => insertIf lt x a) (insertIf lt y acc) := rfl
    rw [h1]
    refine (ih (insertIf lt y acc)).trans ?_
    refine ((insertIf_perm lt y acc).append_right ys).trans ?_
    exact List.perm_middle.symm

end Rex

namespace Rex

/-! ### Stable sort by an integer key: sortedness, idempotence, map -/

lemma insertIf_pairwise (p : α → Int) (x : α) (l : List α)
    (hl : l.Pairwise (fun a b => p b ≤ p a)) :
    (insertIf (fun a b => decide (p a > p b)) x l).Pairwise (fun a b => p b ≤ p a) := by
  induction l with
  | nil => simp [insertIf]
  | cons y ys ih =>
    rw [insertIf]
    rcases List.pairwise_cons.mp hl with ⟨hy, hys⟩
    by_cases h : decide (p x > p y) = true
    · rw [if_pos h]
      have hxy : p y ≤ p x := le_of_lt (of_decide_eq_true h)
      refine List.pairwise_cons.mpr ⟨?_, hl⟩
      intro z hz
      rcases List.mem_cons.mp hz with rfl | hz'
      · exact hxy
      · exact le_trans (hy z hz') hxy
    · rw [if_neg h]
      have hxy : p x ≤ p y := le_of_not_lt (fun hlt => h (decide_eq_true hlt))
      refine List.pairwise_cons.mpr ⟨?_, ih hys⟩
      intro z hz
      rcases (mem_insertIf _ x ys z).mp hz with rfl | hz'
      · exact hxy
      · exact hy z hz'

lemma stableSortBy_pairwise (p : α → Int) (l : List α) :
    (stableSortBy (fun a b => decide (p a > p b)) l).Pairwise (fun a b => p b ≤ p a) := by
  suffices h : ∀ (l acc : List α), acc.Pairwise (fun a b => p b ≤ p a) →
      (l.foldl (fun a x => insertIf (fun a b => decide (p a > p b)) x a) acc).Pairwise
        (fun a b => p b ≤ p a) by
    exact h l [] (by simp)
  intro l
  induction l with
  | nil => intro acc hacc; simpa using hacc
  | cons y ys ih =>
    intro acc hacc
    exact ih _ (insertIf_pairwise p y acc hacc)

lemma insertIf_of_forall_le (p : α → Int) (x : α) (l : List α)
    (h : ∀ y ∈ l, p x ≤ p y) :
    insertIf (fun a b => decide (p a > p b)) x l = l ++ [x] := by
  induction l with
  | nil => simp [insertIf]
  | cons y ys ih =>
    rw [insertIf, if_neg, ih]
    · simp
    · intro z hz
      exact h z (List.mem_cons_of_mem y hz)
    · have := h y (List.mem_cons_self y ys)
      simp [not_lt.mpr this]

lemma stableSortBy_of_pairwise (p : α → Int) (l : List α)
    (hl : l.Pairwise (fun a b => p b ≤ p a)) :
    stableSortBy (fun a b => decide (p a > p b)) l = l := by
  induction l using List.reverseRecOn with
  | nil => rfl
  | append_singleton l x ih =>
    rcases List.pairwise_append.mp hl with ⟨hl1, _, hcross⟩
    rw [stableSortBy, List.foldl_append]
    have h1 : l.foldl (fun a x => insertIf (fun a b => decide (p a > p b)) x a) [] = l := by
      rw [← stableSortBy]; exact ih hl1
    rw [h1]
    simp only [List.foldl]
    exact insertIf_of_forall_le p x l (fun y hy => hcross y hy x (List.mem_singleton_self x))

lemma stableSortBy_idem (p : α → Int) (l : List α) :
    stableSortBy (fun a b => decide (p a > p b))
      (stableSortBy (fun a b => decide (p a > p b)) l) =
    stableSortBy (fun a b => decide (p a > p b)) l :=
  stableSortBy_of_pairwise p _ (stableSortBy_pairwise p l)

lemma insertIf_map (f : α → β) (ltb : β → β → Bool) (x : α) (l : List α) :
    (insertIf (fun a b => ltb (f a) (f b)) x l).map f = insertIf ltb (f x) (l.map f) := by
  induction l with
  | nil => simp [insertIf]
  | cons y ys ih =>
    rw [insertIf]
    by_cases h : ltb (f x) (f y) = true
    · simp [insertIf, h]
    · simp [insertIf, h, ih]

lemma stableSortBy_map (f : α → β) (ltb : β → β → Bool) (l : List α) :
    (stableSortBy (fun a b => ltb (f a) (f b)) l).map f = stableSortBy ltb (l.map f) := by
  suffices h : ∀ (l acc : List α),
      (l.foldl (fun a x => insertIf (fun a b => ltb (f a) (f b)) x a) acc).map f =
      (l.map f).foldl (fun a x => insertIf ltb x a) (acc.map f) by
    exact h l []
  intro l
  induction l with
  | nil => intro acc; rfl
  | cons y ys ih =>
    intro acc
    simp only [List.foldl, List.map_cons]
    rw [ih, insertIf_map]

end Rex

namespace Rex

/-! ### The optimizer on canonical inputs -/

/-- The signature of the rule stored at heap position `i`. -/
def keyAt (heap : Heap) (i : Nat) : String :=
  match heap.get? i with
  | some r => conditionsKeyGo r.conditions
  | none => ""

/-- A `nil`-like placeholder for reading through an invalid index. -/
def dummyRule : Rule := ⟨"", 0, ⟨[], []⟩, ⟨"", []⟩, [], []⟩

/-- The rule stored at heap position `i`. -/
def ruleAt (heap : Heap) (i : Nat) : Rule := (heap.get? i).getD dummyRule

lemma getRulePriority_eq (heap : Heap) (i : Nat) :
    getRulePriority heap i = (ruleAt heap i).priority := by
  rw [getRulePriority, ruleAt]
  cases heap.get? i <;> rfl

lemma list_set_same {l : List α} : ∀ {i : Nat} {a : α}, l.get? i = some a → l.set i a = l := by
  induction l with
  | nil => intro i a h; cases h
  | cons x xs ih =>
    intro i a h
    cases i with
    | zero => cases h; rfl
    | succ n => simp only [List.set]; rw [ih h]

lemma lookup_eq_none_of_forall {β : Type} (k : String) (l : List (String × β))
    (h : ∀ p ∈ l, p.1 ≠ k) : l.lookup k = none := by
  induction l with
  | nil => rfl
  | cons p ps ih =>
    obtain ⟨a, b⟩ := p
    have ha : a ≠ k := h (a, b) (List.mem_cons_self _ _)
    have hba : (k == a) = false := beq_eq_false_iff_ne.mpr (fun he => ha he.symm)
    rw [List.lookup, hba]
    exact ih (fun q hq => h q (List.mem_cons_of_mem _ hq))

lemma mergeStep_fresh {heap : Heap} {assoc : List (String × Nat)} {i : Nat} {r : Rule}
    (hget : heap.get? i = some r)
    (hnorm : normalizeConditionsGo r.conditions = r.conditions)
    (hmiss : ∀ p ∈ assoc, p.1 ≠ keyAt heap i) :
    mergeStep (heap, assoc) i = (heap, assoc ++ [(keyAt heap i, i)]) := by
  have hkey : keyAt heap i = conditionsKeyGo r.conditions := by rw [keyAt, hget]
  have hrule : { r with conditions := normalizeConditionsGo r.conditions } = r := by
    rw [hnorm]
  have hlook : assoc.lookup (conditionsKeyGo r.conditions) = none := by
    rw [← hkey]
    exact lookup_eq_none_of_forall _ _ hmiss
  simp only [mergeStep, hget, hrule, hlook, list_set_same hget, hkey]

lemma merge_foldl_fresh (heap : Heap) :
    ∀ (ids : List Nat) (assoc : List (String × Nat)),
    (∀ i ∈ ids, ∃ r, heap.get? i = some r ∧ normalizeConditionsGo r.conditions = r.conditions) →
    (∀ i ∈ ids, ∀ p ∈ assoc, p.1 ≠ keyAt heap i) →
    (ids.map (keyAt heap)).Nodup →
    ids.foldl mergeStep (heap, assoc) = (heap, assoc ++ ids.map (fun i => (keyAt heap i, i))) := by
  intro ids
  induction ids with
  | nil => intro assoc _ _ _; simp
  | cons i rest ih =>
    intro assoc h1 h2 h3
    obtain ⟨r, hget, hnorm⟩ := h1 i (List.mem_cons_self _ _)
    have hstep := mergeStep_fresh hget hnorm (h2 i (List.mem_cons_self _ _))
    have h3' : (¬ keyAt heap i ∈ rest.map (keyAt heap)) ∧ (rest.map (keyAt heap)).Nodup :=
      List.nodup_cons.mp (by simpa using h3)
    have hrest := ih (assoc ++ [(keyAt heap i, i)])
      (fun j hj => h1 j (List.mem_cons_of_mem _ hj))
      (fun j hj p hp => by
        rcases List.mem_append.mp hp with hp1 | hp2
        · exact h2 j (List.mem_cons_of_mem _ hj) p hp1
        · rcases List.mem_singleton.mp hp2 with rfl
          intro he
          refine h3'.1 ?_
          rw [show (keyAt heap i, i).1 = keyAt heap i from rfl] at he
          rw [he]
          exact List.mem_map_of_mem (keyAt heap) hj)
      h3'.2
    calc (i :: rest).foldl mergeStep (heap, assoc)
        = rest.foldl mergeStep (mergeStep (heap, assoc) i) := rfl
      _ = rest.foldl mergeStep (heap, assoc ++ [(keyAt heap i, i)]) := by rw [hstep]
      _ = (heap, assoc ++ [(keyAt heap i, i)] ++ rest.map (fun j => (keyAt heap j, j))) := hrest
      _ = (heap, assoc ++ (i :: rest).map (fun j => (keyAt heap j, j))) := by
            simp [List.append_assoc]

lemma simplifyStep_id {heap : Heap} {i : Nat} {r : Rule}
    (hget : heap.get? i = some r)
    (hsimp : equalConditionsGo (simplifyRuleConditionsGo r.conditions) r.conditions = true) :
    simplifyStep heap i = (heap, i) := by
  rw [simplifyStep, hget]
  simp [hsimp]

lemma simplify_foldl_id (heap : Heap) :
    ∀ (ids : List Nat) (acc : List Nat),
    (∀ i ∈ ids, ∃ r, heap.get? i = some r ∧
      equalConditionsGo (simplifyRuleConditionsGo r.conditions) r.conditions = true) →
    ids.foldl
      (fun st i =>
        let r := simplifyStep st.1 i
        (r.1, st.2 ++ [r.2]))
      (heap, acc) = (heap, acc ++ ids) := by
  intro ids
  induction ids with
  | nil => intro acc _; simp
  | cons i rest ih =>
    intro acc h1
    obtain ⟨r, hget, hsimp⟩ := h1 i (List.mem_cons_self _ _)
    have hstep := simplifyStep_id hget hsimp
    calc (i :: rest).foldl _ (heap, acc)
        = rest.foldl _ ((simplifyStep heap i).1, acc ++ [(simplifyStep heap i).2]) := rfl
      _ = rest.foldl _ (heap, acc ++ [i]) := by rw [hstep]
      _ = (heap, acc ++ [i] ++ rest) := ih _ (fun j hj => h1 j (List.mem_cons_of_mem _ hj))
      _ = (heap, acc ++ i :: rest) := by simp

lemma simplifyConditionsHeap_id {heap : Heap} {ids : List Nat}
    (h1 : ∀ i ∈ ids, ∃ r, heap.get? i = some r ∧
      equalConditionsGo (simplifyRuleConditionsGo r.conditions) r.conditions = true) :
    simplifyConditionsHeap heap ids = (heap, ids) := by
  rw [simplifyConditionsHeap]
  simpa using simplify_foldl_id heap ids [] h1

lemma map_keyAt_range (heap : Heap) :
    (List.range heap.length).map (keyAt heap) =
      heap.map (fun r => conditionsKeyGo r.conditions) := by
  induction heap with
  | nil => rfl
  | cons r rs ih =>
    rw [List.length_cons, List.range_succ_eq_map, List.map_cons, List.map_map]
    refine congrArg₂ _ rfl ?_
    rw [← ih]
    rfl

lemma map_ruleAt_range (heap : Heap) :
    (List.range heap.length).map (ruleAt heap) = heap := by
  induction heap with
  | nil => rfl
  | cons r rs ih =>
    rw [List.length_cons, List.range_succ_eq_map, List.map_cons, List.map_map]
    refine congrArg₂ _ rfl ?_
    conv_rhs => rw [← ih]
    rfl

lemma filterMap_get?_of_valid (heap : Heap) :
    ∀ (ids : List Nat), (∀ i ∈ ids, i < heap.length) →
    ids.filterMap heap.get? = ids.map (ruleAt heap) := by
  intro ids
  induction ids with
  | nil => intro _; rfl
  | cons i rest ih =>
    intro h
    have hlt := h i (List.mem_cons_self _ _)
    have hsome : heap.get? i = some (heap.get ⟨i, hlt⟩) := List.get?_eq_get hlt
    rw [List.filterMap_cons_some hsome, List.map_cons,
      ih (fun j hj => h j (List.mem_cons_of_mem _ hj))]
    have hra : ruleAt heap i = heap.get ⟨i, hlt⟩ := by rw [ruleAt, hsome]; rfl
    rw [hra]

end Rex

namespace Rex

lemma mergeRulesDet_canonical (heap : Heap)
    (hnorm : ∀ r ∈ heap, normalizeConditionsGo r.conditions = r.conditions)
    (hkeys : (heap.map (fun r => conditionsKeyGo r.conditions)).Nodup) :
    mergeRulesDet heap = (heap, List.range heap.length) := by
  have h := merge_foldl_fresh heap (List.range heap.length) []
    (fun i hi => by
      have hlt : i < heap.length := List.mem_range.mp hi
      refine ⟨heap.get (⟨i, hlt⟩ : Fin heap.length), List.get?_eq_get hlt, ?_⟩
      exact hnorm _ (heap.get_mem i hlt))
    (fun i _ p hp => absurd hp (List.not_mem_nil p))
    (by rw [map_keyAt_range]; exact hkeys)
  rw [mergeRulesDet, mergeRulesCore, h]
  show (heap, ([] ++ (List.range heap.length).map
    (fun i => (keyAt heap i, i))).map Prod.snd) = _
  rw [List.nil_append, List.map_map,
    show (Prod.snd ∘ fun i => (keyAt heap i, i)) = id from rfl, List.map_id]

lemma optimizeDet_canonical (heap : Heap)
    (hnorm : ∀ r ∈ heap, normalizeConditionsGo r.conditions = r.conditions)
    (hsimp : ∀ r ∈ heap, equalConditionsGo (simplifyRuleConditionsGo r.conditions) r.conditions = true)
    (hkeys : (heap.map (fun r => conditionsKeyGo r.conditions)).Nodup) :
    optimizeDetM heap = stableSortBy (fun a b => decide (a.priority > b.priority)) heap ∧
    (OptimizeRulesDet heap).1 = heap := by
  have hmerge := mergeRulesDet_canonical heap hnorm hkeys
  have hfun : (fun i j => decide (getRulePriority heap i > getRulePriority heap j)) =
      (fun i j => decide ((ruleAt heap i).priority > (ruleAt heap j).priority)) := by
    funext i j
    rw [getRulePriority_eq, getRulePriority_eq]
  have hids2 : prioritizeRulesGo heap (List.range heap.length) =
      stableSortBy (fun i j => decide ((ruleAt heap i).priority > (ruleAt heap j).priority))
        (List.range heap.length) := by
    rw [prioritizeRulesGo, hfun]
  have hvalid2 : ∀ i ∈ prioritizeRulesGo heap (List.range heap.length), i < heap.length := by
    intro i hi
    rw [hids2] at hi
    exact List.mem_range.mp ((stableSortBy_perm _ _).mem_iff.mp hi)
  have hsimpl := @simplifyConditionsHeap_id heap
    (prioritizeRulesGo heap (List.range heap.length))
    (fun i hi => by
      have hlt := hvalid2 i hi
      refine ⟨heap.get (⟨i, hlt⟩ : Fin heap.length), List.get?_eq_get hlt, ?_⟩
      exact hsimp _ (heap.get_mem i hlt))
  constructor
  · rw [optimizeDetM, OptimizeRulesDet, hmerge]
    show materializeRules (simplifyConditionsHeap heap
      (prioritizeRulesGo heap (List.range heap.length))) = _
    rw [hsimpl, materializeRules]
    show (prioritizeRulesGo heap (List.range heap.length)).filterMap heap.get? = _
    rw [filterMap_get?_of_valid heap _ hvalid2, hids2,
      stableSortBy_map (ruleAt heap) (fun a b => decide (a.priority > b.priority)),
      map_ruleAt_range]
  · rw [OptimizeRulesDet, hmerge]
    show (simplifyConditionsHeap heap (prioritizeRulesGo heap (List.range heap.length))).1 = heap
    rw [hsimpl]

end Rex

namespace Rex

/-- Two rules with distinct condition signatures and equal priority: a tie
that `sort.SliceStable` preserves, leaving the order produced by the
`mergedRules` map iteration observable in the output. -/
def ruleEqPrioA : Rule :=
  { name := "A", priority := 0,
    conditions := ⟨[mkLeaf "a" "greaterThan" (.vFloat 30) "int"], []⟩,
    event := ⟨"ev", [⟨"updateFact", "c", .vBool true⟩]⟩,
    producedFacts := ["c"], consumedFacts := ["a"] }

def ruleEqPrioB : Rule :=
  { name := "B", priority := 0,
    conditions := ⟨[mkLeaf "b" "greaterThan" (.vFloat 40) "int"], []⟩,
    event := ⟨"ev", [⟨"updateFact", "c", .vBool true⟩]⟩,
    producedFacts := ["c"], consumedFacts := ["b"] }

set_option maxHeartbeats 2000000 in
/-- C6 counterexample: the original idempotence claim fails — `mergeRules`
rebuilds the rule list from a Go map iteration, and for two equal-priority
rules the two legitimate (permutation-proved) iteration orders make
`optimize(optimize(R))` differ from `optimize(R)`. -/
theorem C6_cex :
    List.Perm [0, 1] (List.range 2) ∧ List.Perm [1, 0] (List.range 2) ∧
    optimizeGoM [1, 0] (optimizeGoM [0, 1] [ruleEqPrioA, ruleEqPrioB]) ≠
      optimizeGoM [0, 1] [ruleEqPrioA, ruleEqPrioB] := by
  refine ⟨by decide, by decide, by decide⟩

/-- C6 (amended): under a fixed (insertion-order) map iteration, the
optimizer is idempotent on every rule list whose conditions are already
normalized, whose simplification is a no-op, and whose condition
signatures are pairwise distinct. -/
theorem C6_thm (heap : Heap)
    (hnorm : ∀ r ∈ heap, normalizeConditionsGo r.conditions = r.conditions)
    (hsimp : ∀ r ∈ heap, equalConditionsGo (simplifyRuleConditionsGo r.conditions) r.conditions = true)
    (hkeys : (heap.map (fun r => conditionsKeyGo r.conditions)).Nodup) :
    optimizeDetM (optimizeDetM heap) = optimizeDetM heap := by
  have h1 := (optimizeDet_canonical heap hnorm hsimp hkeys).1
  have hperm : List.Perm
      (stableSortBy (fun a b => decide (a.priority > b.priority)) heap) heap :=
    stableSortBy_perm _ _
  have hnorm' : ∀ r ∈ stableSortBy (fun a b => decide (a.priority > b.priority)) heap,
      normalizeConditionsGo r.conditions = r.conditions :=
    fun r hr => hnorm r (hperm.mem_iff.mp hr)
  have hsimp' : ∀ r ∈ stableSortBy (fun a b => decide (a.priority > b.priority)) heap,
      equalConditionsGo (simplifyRuleConditionsGo r.conditions) r.conditions = true :=
    fun r hr => hsimp r (hperm.mem_iff.mp hr)
  have hkeys' : ((stableSortBy (fun a b => decide (a.priority > b.priority)) heap).map
      (fun r => conditionsKeyGo r.conditions)).Nodup := by
    refine List.Perm.nodup ?_ hkeys
    exact (hperm.map (fun r => conditionsKeyGo r.conditions)).symm
  rw [h1, (optimizeDet_canonical _ hnorm' hsimp' hkeys').1]
  exact stableSortBy_idem Rule.priority heap

/-- C6 witness: the amended idempotence at the two demo rules, with every
hypothesis discharged by evaluation. -/
theorem C6_wit :
    (∀ r ∈ [ruleEqPrioA, ruleEqPrioB], normalizeConditionsGo r.conditions = r.conditions) ∧
    (∀ r ∈ [ruleEqPrioA, ruleEqPrioB],
      equalConditionsGo (simplifyRuleConditionsGo r.conditions) r.conditions = true) ∧
    (([ruleEqPrioA, ruleEqPrioB].map (fun r => conditionsKeyGo r.conditions)).Nodup) ∧
    optimizeDetM (optimizeDetM [ruleEqPrioA, ruleEqPrioB]) =
      optimizeDetM [ruleEqPrioA, ruleEqPrioB] :=
  ⟨by decide, by decide, by decide,
    C6_thm [ruleEqPrioA, ruleEqPrioB] (by decide) (by decide) (by decide)⟩

/-- C9 counterexample: the original no-mutation claim fails — after the
pipeline, the first rule of a merged same-signature pair is no longer the
parsed rule object: its action list has grown by the second rule's
actions. -/
theorem C9_cex :
    (OptimizeRulesDet [demoRuleX, demoRuleY]).1.get? 0 ≠ some demoRuleX ∧
    ((OptimizeRulesDet [demoRuleX, demoRuleY]).1.get? 0).map (fun r => r.event.actions) =
      some (demoRuleX.event.actions ++ demoRuleY.event.actions) := by
  refine ⟨by decide, by decide⟩

/-- C9 (amended): when every condition signature is distinct, conditions
are already normalized and simplification is a no-op, the optimizer's
merge/prioritize/simplify pipeline returns the rule heap fully
unchanged — no rule object is mutated. -/
theorem C9_thm (heap : Heap)
    (hnorm : ∀ r ∈ heap, normalizeConditionsGo r.conditions = r.conditions)
    (hsimp : ∀ r ∈ heap, equalConditionsGo (simplifyRuleConditionsGo r.conditions) r.conditions = true)
    (hkeys : (heap.map (fun r => conditionsKeyGo r.conditions)).Nodup) :
    (OptimizeRulesDet heap).1 = heap :=
  (optimizeDet_canonical heap hnorm hsimp hkeys).2

/-- C9 witness: the amended no-mutation theorem at the two demo rules. -/
theorem C9_wit :
    (∀ r ∈ [ruleEqPrioA, ruleEqPrioB], normalizeConditionsGo r.conditions = r.conditions) ∧
    (OptimizeRulesDet [ruleEqPrioA, ruleEqPrioB]).1 = [ruleEqPrioA, ruleEqPrioB] :=
  ⟨by decide, C9_thm [ruleEqPrioA, ruleEqPrioB] (by decide) (by decide) (by decide)⟩

end Rex

namespace Rex

/-! ## The context-based bytecode compiler

Embeds the `compiler.go` draft whose `Compiler` carries a
`RuleEngineContext`, generates unique labels, tracks `jumpsNeedingLabels`
and patches 2-byte placeholders in `resolveLabelOffsets`.  Opcode numbers
follow the `instructions.go` enumeration. -/

def EQ_INT : Nat := 0
def NEQ_INT : Nat := 1
def LT_INT : Nat := 2
def LTE_INT : Nat := 3
def GT_INT : Nat := 4
def GTE_INT : Nat := 5
def EQ_FLOAT : Nat := 6
def NEQ_FLOAT : Nat := 7
def LT_FLOAT : Nat := 8
def LTE_FLOAT : Nat := 9
def GT_FLOAT : Nat := 10
def GTE_FLOAT : Nat := 11
def EQ_STRING : Nat := 12
def NEQ_STRING : Nat := 13
def AND : Nat := 14
def OR : Nat := 15
def NOT : Nat := 16
def LOAD_FACT : Nat := 17
def STORE_FACT : Nat := 18
def LOAD_CONST_INT : Nat := 19
def LOAD_CONST_FLOAT : Nat := 20
def LOAD_CONST_STRING : Nat := 21
def LOAD_CONST_BOOL : Nat := 22
def LOAD_VAR : Nat := 23
def JUMP : Nat := 24
def JUMP_IF_TRUE : Nat := 25
def JUMP_IF_FALSE : Nat := 26
def TRIGGER_ACTION : Nat := 27
def UPDATE_FACT : Nat := 28
def SEND_MESSAGE : Nat := 29
def NOP : Nat := 30
def HALT : Nat := 31
def ERROR : Nat := 32

/-- An `Instruction` with its `BytecodePosition` field. -/
structure CInstr where
  opcode : Nat
  operands : List Nat
  bytecodePosition : Nat
deriving DecidableEq, Repr

/-- The mutable fields of `Compiler` (the `context` travels separately). -/
structure CompilerState where
  instructions : List CInstr
  bytecode : List Nat
  labelOffsets : List (String × Nat)
  labelCounter : Nat
  jumpsNeedingLabels : List (Nat × String)
deriving DecidableEq, Repr

/-- `RuleEngineContext.FactIndex`. -/
abbrev FactIndex := List (String × Nat)

/-- `NewCompiler`. -/
def newCompilerState : CompilerState := ⟨[], [], [], 0, []⟩

instance {ε α : Type} [DecidableEq ε] [DecidableEq α] : DecidableEq (Except ε α) :=
  fun a b =>
    match a, b with
    | .ok x, .ok y =>
      if h : x = y then isTrue (by rw [h]) else isFalse (fun he => h (by cases he; rfl))
    | .error x, .error y =>
      if h : x = y then isTrue (by rw [h]) else isFalse (fun he => h (by cases he; rfl))
    | .ok _, .error _ => isFalse (fun he => Except.noConfusion he)
    | .error _, .ok _ => isFalse (fun he => Except.noConfusion he)

/-- `emitInstruction`: append opcode and operand bytes; record the
instruction with the bytecode position it starts at. -/
def emitInstruction (s : CompilerState) (opcode : Nat) (operands : List Nat) : CompilerState :=
  let currentBytecodePosition := s.bytecode.length
  { s with
    bytecode := s.bytecode ++ opcode :: operands,
    instructions := s.instructions ++ [⟨opcode, operands, currentBytecodePosition⟩] }

/-- `emitLabel`: record the label at the current bytecode length (no bytes
are emitted). -/
def emitLabel (s : CompilerState) (label : String) : CompilerState :=
  { s with labelOffsets := s.labelOffsets ++ [(label, s.bytecode.length)] }

/-- `generateUniqueLabel`. -/
def generateUniqueLabel (s : CompilerState) (base : String) : String × CompilerState :=
  (base ++ "_" ++ toString s.labelCounter, { s with labelCounter := s.labelCounter + 1 })

/-- `getFactIndex`. -/
def getFactIndex (ctx : FactIndex) (factName : String) : Except String Nat :=
  match ctx.lookup factName with
  | some i => .ok i
  | none => .error ("fact '" ++ factName ++ "' not defined in the context")

/-- The byte sequence of an ASCII string (`[]byte(s)`); every string this
development compiles is ASCII, where UTF-8 bytes are the character codes. -/
def strBytes (s : String) : List Nat := s.toList.map Char.toNat

/-- `binary.LittleEndian.PutUint32` of `uint32(v)` for a Go `int` `v`. -/
def le32 (v : Int) : List Nat :=
  let u := (v % 4294967296).toNat
  [u % 256, u / 256 % 256, u / 65536 % 256, u / 16777216 % 256]

/-- 8 little-endian bytes of a 64-bit word. -/
def le64 (u : Nat) : List Nat :=
  [u % 256, u / 2 ^ 8 % 256, u / 2 ^ 16 % 256, u / 2 ^ 24 % 256,
   u / 2 ^ 32 % 256, u / 2 ^ 40 % 256, u / 2 ^ 48 % 256, u / 2 ^ 56 % 256]

/-- `math.Float64bits` of the `float64` holding the integer `n` (round to
nearest, ties to even, overflow to infinity — the IEEE-754 conversion Go
performs). -/
def f64bitsOfInt (n : Int) : Nat :=
  if n = 0 then 0
  else
    let sign : Nat := if n < 0 then 1 else 0
    let m := n.natAbs
    let e := Nat.log2 m
    let mant :=
      if e ≤ 52 then m <<< (52 - e)
      else
        let shift := e - 52
        let base := m >>> shift
        let rest := m % 2 ^ shift
        let half := 2 ^ (shift - 1)
        if rest > half || (rest == half && base % 2 == 1) then base + 1 else base
    let mant2 := if mant ≥ 2 ^ 53 then mant >>> 1 else mant
    let e2 := if mant ≥ 2 ^ 53 then e + 1 else e
    if e2 + 1023 ≥ 2047 then sign <<< 63 ||| 2047 <<< 52
    else sign <<< 63 ||| (e2 + 1023) <<< 52 ||| (mant2 - 2 ^ 52)

/-- `emitLoadConstantInstruction`.  `log.Fatal` aborts the process; the
embedding surfaces it as an error, as it does the `panic`s. -/
def emitLoadConstantInstruction (s : CompilerState) (value : GoValue) (valueType : String) :
    Except String CompilerState :=
  if valueType = "int" then
    match value with
    | .vFloat v => .ok (emitInstruction s LOAD_CONST_INT (le32 v))
    | .vInt v => .ok (emitInstruction s LOAD_CONST_INT (le32 v))
    | _ => .error "log.Fatal: unsupported conversion"
  else if valueType = "float" then
    match value with
    | .vInt v => .ok (emitInstruction s LOAD_CONST_FLOAT (le64 (f64bitsOfInt v)))
    | .vFloat v => .ok (emitInstruction s LOAD_CONST_FLOAT (le64 (f64bitsOfInt v)))
    | _ => .error "log.Fatal: unsupported conversion"
  else if valueType = "string" then
    match value with
    | .vStr sv =>
      if (strBytes sv).length > 255 then
        .error "panic: String value too long for LOAD_CONST_STRING instruction"
      else .ok (emitInstruction s LOAD_CONST_STRING ((strBytes sv).length :: strBytes sv))
    | _ => .error "log.Fatal: value is not a string as expected"
  else if valueType = "bool" then
    match value with
    | .vBool b => .ok (emitInstruction s LOAD_CONST_BOOL [if b then 1 else 0])
    | _ => .error "log.Fatal: value is not a bool as expected"
  else .error ("panic: Unsupported valueType")

/-- `getComparisonOpcode`: only the two greater-than operators are mapped;
everything else silently becomes `NOP`. -/
def getComparisonOpcode (operator : String) : Nat :=
  if operator = "greaterThan" then GT_INT
  else if operator = "greaterThanOrEqual" then GTE_INT
  else NOP

mutual

/-- `compileCondition`: nested `all` recurses with the same failure label;
nested `any` recurses with `jumpIfTrue` and appends a placeholder `JUMP`
whose pending entry targets `jumpLabel` (the generated `any_end` label is
bound but never targeted); a leaf emits
`LOAD_FACT; LOAD_CONST_*; CMP; JUMP_IF_(TRUE|FALSE) <2-byte placeholder>`
and records the jump for patching. -/
def compileCondition (ctx : FactIndex) (s : CompilerState) (condition : Condition)
    (jumpLabel : String) (jumpIfTrue : Bool) : Except String CompilerState :=
  match condition with
  | .mk fact operator value valueType nestedAll nestedAny =>
    if nestedAll.length > 0 then
      compileCondList ctx s nestedAll jumpLabel false
    else if nestedAny.length > 0 then
      let p := generateUniqueLabel s "any_end"
      match compileCondList ctx p.2 nestedAny jumpLabel true with
      | .error e => .error e
      | .ok s2 =>
        let s3 := emitInstruction s2 JUMP [0, 0]
        let s4 := { s3 with
          jumpsNeedingLabels := s3.jumpsNeedingLabels ++ [(s3.instructions.length - 1, jumpLabel)] }
        .ok (emitLabel s4 p.1)
    else
      match getFactIndex ctx fact with
      | .error e => .error e
      | .ok factIndex =>
        let s1 := emitInstruction s LOAD_FACT [factIndex % 256]
        match emitLoadConstantInstruction s1 value valueType with
        | .error e => .error e
        | .ok s2 =>
          let s3 := emitInstruction s2 (getComparisonOpcode operator) []
          let s4 := emitInstruction s3 (if jumpIfTrue then JUMP_IF_TRUE else JUMP_IF_FALSE) [0, 0]
          .ok { s4 with
            jumpsNeedingLabels := s4.jumpsNeedingLabels ++ [(s4.instructions.length - 1, jumpLabel)] }

/-- The `for … range` loops inside `compileCondition`/`compileConditions`. -/
def compileCondList (ctx : FactIndex) (s : CompilerState) (conditions : List Condition)
    (jumpLabel : String) (jumpIfTrue : Bool) : Except String CompilerState :=
  match conditions with
  | [] => .ok s
  | c :: cs =>
    match compileCondition ctx s c jumpLabel jumpIfTrue with
    | .error e => .error e
    | .ok s1 => compileCondList ctx s1 cs jumpLabel jumpIfTrue

end

/-- The `conditions.Any` loop of `compileConditions`: each element gets a
fresh (never-bound) `action` label as its success target, then a `JUMP`
whose operand bytes are the label string itself, with a pending entry for
`endLabel`. -/
def compileAnyLoop (ctx : FactIndex) (s : CompilerState) (conditions : List Condition)
    (endLabel : String) : Except String CompilerState :=
  match conditions with
  | [] => .ok s
  | c :: cs =>
    let p := generateUniqueLabel s "action"
    match compileCondition ctx p.2 c p.1 true with
    | .error e => .error e
    | .ok s2 =>
      let s3 := emitInstruction s2 JUMP (strBytes endLabel)
      let s4 := { s3 with
        jumpsNeedingLabels := s3.jumpsNeedingLabels ++ [(s3.instructions.length - 1, endLabel)] }
      compileAnyLoop ctx s4 cs endLabel

/-- `compileConditions`. -/
def compileConditionsGo (ctx : FactIndex) (s : CompilerState) (conditions : Conditions)
    (endLabel : String) : Except String CompilerState :=
  match compileCondList ctx s conditions.all endLabel false with
  | .error e => .error e
  | .ok s1 => compileAnyLoop ctx s1 conditions.any endLabel

/-- The action loop of `compileRule`: only `updateFact` is supported, and
the written value is loaded with the hard-coded `"bool"` value type. -/
def compileRuleActions (ctx : FactIndex) (s : CompilerState) (actions : List Action) :
    Except String CompilerState :=
  match actions with
  | [] => .ok s
  | a :: rest =>
    if a.type = "updateFact" then
      match getFactIndex ctx a.target with
      | .error e => .error e
      | .ok factIndex =>
        let s1 := emitInstruction s UPDATE_FACT [factIndex % 256]
        match emitLoadConstantInstruction s1 a.value "bool" with
        | .error e => .error e
        | .ok s2 => compileRuleActions ctx s2 rest
    else .error ("unsupported action type: " ++ a.type)

/-- `compileRule`. -/
def compileRuleGo (ctx : FactIndex) (s : CompilerState) (rule : Rule) :
    Except String CompilerState :=
  let p1 := generateUniqueLabel s "rule_start"
  let p2 := generateUniqueLabel p1.2 "rule_end"
  let s3 := emitLabel p2.2 p1.1
  match compileConditionsGo ctx s3 rule.conditions p2.1 with
  | .error e => .error e
  | .ok s4 =>
    match compileRuleActions ctx s4 rule.event.actions with
    | .error e => .error e
    | .ok s5 => .ok (emitLabel s5 p2.1)

/-- `binary.LittleEndian.PutUint16` into the bytecode slice at `pos`:
`uint16` truncation of the value, little-endian; fewer than two bytes of
room is a Go slice-bounds panic. -/
def write2LE (bytecode : List Nat) (pos : Nat) (v : Int) : Except String (List Nat) :=
  if pos + 2 > bytecode.length then .error "panic: slice bounds out of range"
  else
    let u := (v % 65536).toNat
    .ok ((bytecode.set pos (u % 256)).set (pos + 1) (u / 256 % 256))

/-- The loop of `resolveLabelOffsets`: each pending jump is patched at the
instruction's `BytecodePosition` — the position of its opcode byte, not of
its operand — with `uint16(labelOffset − position − 2)`. -/
def resolveLoop (s : CompilerState) (jumps : List (Nat × String)) (bytecode : List Nat) :
    Except String (List Nat) :=
  match jumps with
  | [] => .ok bytecode
  | (idx, label) :: rest =>
    match s.labelOffsets.lookup label with
    | none => .error ("label " ++ label ++ " not defined")
    | some labelOffset =>
      match s.instructions.get? idx with
      | none => .error "panic: index out of range"
      | some inst =>
        match write2LE bytecode inst.bytecodePosition
            ((labelOffset : Int) - inst.bytecodePosition - 2) with
        | .error e => .error e
        | .ok bc2 => resolveLoop s rest bc2

/-- `resolveLabelOffsets`. -/
def resolveLabelOffsetsGo (s : CompilerState) : Except String (List Nat) :=
  resolveLoop s s.jumpsNeedingLabels s.bytecode

/-- The `Compile` loop over the rules. -/
def compileRulesLoop (ctx : FactIndex) (s : CompilerState) (rules : List Rule) :
    Except String CompilerState :=
  match rules with
  | [] => .ok s
  | r :: rest =>
    match compileRuleGo ctx s r with
    | .error e => .error e
    | .ok s1 => compileRulesLoop ctx s1 rest

/-- `Compiler.Compile`: compile every rule, then resolve labels; the
resolved bytecode (no header) is the artifact. -/
def CompileGo (ctx : FactIndex) (rules : List Rule) : Except String (List Nat) :=
  match compileRulesLoop ctx newCompilerState rules with
  | .error e => .error e
  | .ok s => resolveLabelOffsetsGo s

end Rex

namespace Rex

/-! ## The bytecode virtual machine (`runtime.go`, `VM.Run`)

The embedded variant is the one the claims cite: it skips a header with
`readHeader`, pre-decodes operands with `decodeOperands` before the opcode
switch, reads jump operands with `binary.Varint` and assigns them to `ip`
absolutely.  `vm.ip` is a Go `int`, so it is `Int` here; a negative index
into the bytecode is a runtime panic, which the `defer`/`recover` block of
`Run` re-raises as a `*VMError` carrying `vm.ip` — modelled by the
`panicked` outcome.  The interpreter loop gets explicit fuel; `fuelOut`
means the loop was still running when the fuel ran out, and `stuckLoop`
models the `decodeOperands` loop spinning forever on an operand tag above
3 (its `decodeValue` then consumes nothing). -/

/-- A value on the VM stack or in the fact map: Go `int`, `float64`
(carried as its IEEE-754 bit pattern), `string` or `bool`. -/
inductive VMValue where
  | vmInt (n : Int)
  | vmFloat (bits : Nat)
  | vmStr (s : String)
  | vmBool (b : Bool)
deriving DecidableEq, Repr

/-- How a call to `VM.Run` ends. -/
inductive VmOutcome where
  | ok
  | errVM (msg : String) (ip : Int)
  | errPlain (msg : String)
  | panicked (msg : String) (ip : Int)
  | stuckLoop
  | fuelOut
deriving DecidableEq, Repr

/-- The `VM` struct. -/
structure VmState where
  bytecode : List Nat
  ip : Int
  stack : List VMValue
  facts : List (String × VMValue)
deriving DecidableEq, Repr

/-- `binary.Uvarint`: returns the decoded value and the byte count — `0`
when the buffer is empty or ends mid-group, negative on overflow
(`MaxVarintLen64 = 10`). -/
def uvarintAux : List Nat → Nat → Nat → Nat → Nat × Int
  | [], _, _, _ => (0, 0)
  | b :: rest, i, x, sh =>
    if i = 10 then (0, -(Int.ofNat (i + 1)))
    else if b < 0x80 then
      if i = 9 ∧ b > 1 then (0, -(Int.ofNat (i + 1)))
      else ((x ||| b <<< sh) % 2 ^ 64, Int.ofNat (i + 1))
    else uvarintAux rest (i + 1) ((x ||| (b &&& 0x7f) <<< sh) % 2 ^ 64) (sh + 7)

def uvarintGo (buf : List Nat) : Nat × Int := uvarintAux buf 0 0 0

/-- `binary.Varint` (zig-zag decoding), hence `decodeInt`: the decoded
`int` and the byte count. -/
def varintGo (buf : List Nat) : Int × Int :=
  let p := uvarintGo buf
  (if p.1 % 2 = 1 then -(Int.ofNat (p.1 >>> 1) + 1) else Int.ofNat (p.1 >>> 1), p.2)

/-- The index of the first `0` byte, if any. -/
def findZeroIdx : List Nat → Option Nat
  | [] => none
  | b :: rest => if b = 0 then some 0 else (findZeroIdx rest).map (· + 1)

/-- The string made of the given (ASCII) byte values. -/
def strOfBytes (l : List Nat) : String := String.mk (l.map Char.ofNat)

/-- `decodeString`: scan for a NUL terminator; without one, both the value
and the count stay zero. -/
def decodeStringGo (bc : List Nat) : String × Nat :=
  match findZeroIdx bc with
  | some i => (strOfBytes (bc.take i), i + 1)
  | none => ("", 0)

/-- `binary.LittleEndian.Uint64` of the first 8 bytes. -/
def readLE64 (l : List Nat) : Nat :=
  ((l.take 8).reverse).foldl (fun acc b => acc * 256 + b) 0

/-- `Opcode.HasOperands`. -/
def hasOperands (op : Nat) : Bool :=
  op = LOAD_CONST_INT || op = LOAD_CONST_FLOAT || op = LOAD_CONST_STRING ||
  op = LOAD_CONST_BOOL || op = LOAD_FACT || op = JUMP || op = JUMP_IF_TRUE ||
  op = JUMP_IF_FALSE

/-- How the `decodeOperands` pre-scan ends. -/
inductive DecRes where
  | ok (n : Nat)
  | stuck
  | panic
deriving DecidableEq, Repr

/-- The total byte count `decodeOperands` consumes: `decodeValue` is
applied until the slice is empty.  Tags 0–3 consume at least one byte;
any other tag returns without consuming, so the Go loop never terminates
(`stuck`); a short float or bool body, or a varint overflow, indexes past
the slice (`panic`).  The `fuel` argument only drives the structural
recursion: every recursive call drops at least one byte, so
`length + 1` fuel never runs out (`decodeOperandsLen` supplies it). -/
def decodeOperandsLenAux : Nat → List Nat → DecRes
  | 0, _ => .stuck
  | _ + 1, [] => .ok 0
  | fuel + 1, tag :: rest =>
    if tag = 0 then
      let m := (varintGo rest).2
      if m < 0 then .panic
      else
        match decodeOperandsLenAux fuel (rest.drop m.toNat) with
        | .ok n => .ok (n + m.toNat + 1)
        | r => r
    else if tag = 1 then
      if rest.length < 8 then .panic
      else
        match decodeOperandsLenAux fuel (rest.drop 8) with
        | .ok n => .ok (n + 9)
        | r => r
    else if tag = 2 then
      let m := (decodeStringGo rest).2
      match decodeOperandsLenAux fuel (rest.drop m) with
      | .ok n => .ok (n + m + 1)
      | r => r
    else if tag = 3 then
      if rest.length < 1 then .panic
      else
        match decodeOperandsLenAux fuel (rest.drop 1) with
        | .ok n => .ok (n + 2)
        | r => r
    else .stuck

def decodeOperandsLen (l : List Nat) : DecRes :=
  decodeOperandsLenAux (l.length + 1) l

/-- `VM.pop`. -/
def vmPop (s : VmState) : Except VmOutcome (VMValue × VmState) :=
  match s.stack with
  | [] => .error (.errVM "pop from an empty stack" s.ip)
  | v :: rest => .ok (v, { s with stack := rest })

/-- `VM.binaryOp`: pop `b`, pop `a`, push `op(a, b)`; a failed type
assertion inside `op` is a runtime panic (`none`). -/
def vmBinaryOp (s : VmState) (op : VMValue → VMValue → Option VMValue) :
    Except VmOutcome VmState :=
  match vmPop s with
  | .error e => .error e
  | .ok (b, s1) =>
    match vmPop s1 with
    | .error e => .error e
    | .ok (a, s2) =>
      match op a b with
      | none => .error (.panicked "interface conversion" s2.ip)
      | some v => .ok { s2 with stack := v :: s2.stack }

/-- `VM.unaryOp`. -/
def vmUnaryOp (s : VmState) (op : VMValue → Option VMValue) : Except VmOutcome VmState :=
  match vmPop s with
  | .error e => .error e
  | .ok (a, s1) =>
    match op a with
    | none => .error (.panicked "interface conversion" s1.ip)
    | some v => .ok { s1 with stack := v :: s1.stack }

def opIntCmp (f : Int → Int → Bool) : VMValue → VMValue → Option VMValue
  | .vmInt a, .vmInt b => some (.vmBool (f a b))
  | _, _ => none

/-- IEEE-754 helpers for the `float64` comparisons, on bit patterns. -/
def f64IsNaN (b : Nat) : Bool :=
  (b >>> 52) &&& 0x7FF = 0x7FF && b &&& 0xFFFFFFFFFFFFF ≠ 0

/-- Order key: sign-magnitude as an integer; both zeros map to 0. -/
def f64Key (b : Nat) : Int :=
  if b >>> 63 = 1 then -(Int.ofNat (b &&& 0x7FFFFFFFFFFFFFFF)) else Int.ofNat b

def opFloatCmp (f : Nat → Nat → Bool) : VMValue → VMValue → Option VMValue
  | .vmFloat a, .vmFloat b => some (.vmBool (f a b))
  | _, _ => none

def f64Eq (a b : Nat) : Bool := !f64IsNaN a && !f64IsNaN b && f64Key a = f64Key b

def f64Lt (a b : Nat) : Bool := !f64IsNaN a && !f64IsNaN b && decide (f64Key a < f64Key b)

def f64Le (a b : Nat) : Bool := !f64IsNaN a && !f64IsNaN b && decide (f64Key a ≤ f64Key b)

def opStrCmp (f : String → String → Bool) : VMValue → VMValue → Option VMValue
  | .vmStr a, .vmStr b => some (.vmBool (f a b))
  | _, _ => none

def opBoolBin (f : Bool → Bool → Bool) : VMValue → VMValue → Option VMValue
  | .vmBool a, .vmBool b => some (.vmBool (f a b))
  | _, _ => none

def opBoolUn (f : Bool → Bool) : VMValue → Option VMValue
  | .vmBool a => some (.vmBool (f a))
  | _ => none

/-- `readHeader`: `binary.Read` of the packed 10-byte header struct (error
⇒ 0), then `unsafe.Sizeof(header)` = 12 as the reported size. -/
def readHeaderGo (bc : List Nat) : Nat := if bc.length < 10 then 0 else 12

/-- The opcode switch of `VM.Run` (after the operand pre-scan). -/
def vmDispatch (s : VmState) (opcode : Nat) : Except VmOutcome VmState :=
  let tail := s.bytecode.drop s.ip.toNat
  if opcode = LOAD_CONST_INT then
    let p := varintGo tail
    .ok { s with ip := s.ip + p.2, stack := .vmInt p.1 :: s.stack }
  else if opcode = LOAD_CONST_FLOAT then
    if tail.length < 8 then .error (.panicked "index out of range" s.ip)
    else .ok { s with ip := s.ip + 8, stack := .vmFloat (readLE64 tail) :: s.stack }
  else if opcode = LOAD_CONST_STRING then
    let p := decodeStringGo tail
    .ok { s with ip := s.ip + p.2, stack := .vmStr p.1 :: s.stack }
  else if opcode = LOAD_FACT then
    let p := decodeStringGo tail
    let s1 := { s with ip := s.ip + p.2 }
    match s1.facts.lookup p.1 with
    | none => .error (.errPlain ("undefined fact: " ++ p.1))
    | some v => .ok { s1 with stack := v :: s1.stack }
  else if opcode = EQ_INT then vmBinaryOp s (opIntCmp (· == ·))
  else if opcode = NEQ_INT then vmBinaryOp s (opIntCmp (· != ·))
  else if opcode = LT_INT then vmBinaryOp s (opIntCmp (fun a b => decide (a < b)))
  else if opcode = LTE_INT then vmBinaryOp s (opIntCmp (fun a b => decide (a ≤ b)))
  else if opcode = GT_INT then vmBinaryOp s (opIntCmp (fun a b => decide (b < a)))
  else if opcode = GTE_INT then vmBinaryOp s (opIntCmp (fun a b => decide (b ≤ a)))
  else if opcode = EQ_FLOAT then vmBinaryOp s (opFloatCmp f64Eq)
  else if opcode = NEQ_FLOAT then vmBinaryOp s (opFloatCmp (fun a b => !f64Eq a b))
  else if opcode = LT_FLOAT then vmBinaryOp s (opFloatCmp f64Lt)
  else if opcode = LTE_FLOAT then vmBinaryOp s (opFloatCmp f64Le)
  else if opcode = GT_FLOAT then vmBinaryOp s (opFloatCmp (fun a b => f64Lt b a))
  else if opcode = GTE_FLOAT then vmBinaryOp s (opFloatCmp (fun a b => f64Le b a))
  else if opcode = EQ_STRING then vmBinaryOp s (opStrCmp (· == ·))
  else if opcode = NEQ_STRING then vmBinaryOp s (opStrCmp (· != ·))
  else if opcode = AND then vmBinaryOp s (opBoolBin (· && ·))
  else if opcode = OR then vmBinaryOp s (opBoolBin (· || ·))
  else if opcode = NOT then vmUnaryOp s (opBoolUn (!·))
  else if opcode = JUMP then
    -- `offset, n := decodeInt(...)`; `vm.ip += n`; `vm.ip = offset`:
    -- the increment is dead, the decoded operand lands in `ip` absolutely.
    let p := varintGo tail
    .ok { s with ip := p.1 }
  else if opcode = JUMP_IF_TRUE then
    let p := varintGo tail
    let s1 := { s with ip := s.ip + p.2 }
    match vmPop s1 with
    | .error e => .error e
    | .ok (a, s2) =>
      match a with
      | .vmBool bb => .ok (if bb then { s2 with ip := p.1 } else s2)
      | _ => .error (.panicked "interface conversion" s2.ip)
  else if opcode = JUMP_IF_FALSE then
    let p := varintGo tail
    let s1 := { s with ip := s.ip + p.2 }
    match vmPop s1 with
    | .error e => .error e
    | .ok (a, s2) =>
      match a with
      | .vmBool bb => .ok (if bb then s2 else { s2 with ip := p.1 })
      | _ => .error (.panicked "interface conversion" s2.ip)
  else if opcode = HALT then .error .ok
  else .error (.errVM ("unknown opcode: " ++ toString opcode) s.ip)

/-- One iteration of the `VM.Run` loop: fetch the opcode byte, advance
`ip`, run the `decodeOperands` pre-scan for operand-carrying opcodes (its
consumed count advances `ip` again), then dispatch. -/
def vmStep (s : VmState) : Except VmOutcome VmState :=
  if s.ip < 0 then .error (.panicked "index out of range" s.ip)
  else
    match s.bytecode.get? s.ip.toNat with
    | none => .error (.panicked "index out of range" s.ip)
    | some opcode =>
      let s1 := { s with ip := s.ip + 1 }
      if hasOperands opcode then
        match decodeOperandsLen (s1.bytecode.drop s1.ip.toNat) with
        | .ok n => vmDispatch { s1 with ip := s1.ip + n } opcode
        | .stuck => .error .stuckLoop
        | .panic => .error (.panicked "index out of range" s1.ip)
      else vmDispatch s1 opcode

/-- The `for vm.ip < len(vm.bytecode)` loop of `VM.Run`, with fuel. -/
def vmRunAux : Nat → VmState → VmOutcome
  | 0, _ => .fuelOut
  | fuel + 1, s =>
    if s.ip < (s.bytecode.length : Int) then
      match vmStep s with
      | .error out => out
      | .ok s1 => vmRunAux fuel s1
    else .ok

/-- `VM.Run` on a bytecode array and preloaded fact map: skip the header,
then interpret. -/
def vmRun (fuel : Nat) (bytecode : List Nat) (facts : List (String × VMValue)) : VmOutcome :=
  vmRunAux fuel
    { bytecode := bytecode, ip := (readHeaderGo bytecode : Int), stack := [], facts := facts }

end Rex

namespace Rex

/-! ## Concrete programs used by the claims -/

/-- A fact-index context with `a → 0`, `b → 1`, `c → 2` (first-come
first-served insertion order). -/
def c1ctx : FactIndex := [("a", 0), ("b", 1), ("c", 2)]

/-- A rule whose top-level conditions are an `all` list of two leaves:
`a > 30` and `b > 5` (int), with one `updateFact c := true` action. -/
def c1rule : Rule :=
  { name := "R", priority := 0,
    conditions := ⟨[mkLeaf "a" "greaterThan" (.vFloat 30) "int",
                    mkLeaf "b" "greaterThan" (.vFloat 5) "int"], []⟩,
    event := ⟨"ev", [⟨"updateFact", "c", .vBool true⟩]⟩,
    producedFacts := ["c"], consumedFacts := ["a", "b"] }

/-- The bytecode `CompileGo c1ctx [c1rule]` emits.  Position 8 held the
first leaf's `JUMP_IF_FALSE` opcode (26) before label resolution; the
resolver wrote the 16-bit value `26 − 8 − 2 = 16` at position 8, leaving
`16, 0, 0` where `26, lo, hi` should be. -/
def c1bytes : List Nat :=
  [17, 0, 19, 30, 0, 0, 0, 4, 16, 0, 0, 17, 1, 19, 5, 0, 0, 0, 4, 5, 0, 0, 28, 2, 22, 1]

/-- Twelve header bytes (unvalidated by `readHeader`) followed by a `JUMP`
whose varint operand decodes to 0 — a target at or before the jump's own
position 12.  The operand byte also lets the pre-scan terminate. -/
def c10prog : List Nat := [24, 0, 0, 0, 0, 0, 0, 0, 0, 0, 0, 0, 24, 0]

/-- Header bytes followed by `LOAD_FACT` with an empty-name operand; the
fact map is empty, so the load is an unresolved fact reference. -/
def c7missing : List Nat := [0, 0, 0, 0, 0, 0, 0, 0, 0, 0, 0, 0, 17, 0]

/-- Header bytes followed by the unknown opcode 40. -/
def c7unknown : List Nat := [0, 0, 0, 0, 0, 0, 0, 0, 0, 0, 0, 0, 40]

/-- Header bytes followed by `EQ_INT` on an empty stack. -/
def c7underflow : List Nat := [0, 0, 0, 0, 0, 0, 0, 0, 0, 0, 0, 0, 0]

/-- Header bytes followed by `JUMP` with the two operand bytes `2, 0` — as
a little-endian 16-bit relative offset this reads 2 and the claimed target
is 15 + 2 = 17, past the end of the 15-byte program. -/
def c2vmprog : List Nat := [0, 0, 0, 0, 0, 0, 0, 0, 0, 0, 0, 0, 24, 2, 0]

/-- C1: the claim says that for a compiled rule whose top-level `all` has
two leaves, running the emitted bytecode with the first leaf false never
reaches the second leaf's `LOAD_FACT` because control jumps to the failure
target.  The code diverges: label resolution overwrites the first leaf's
`JUMP_IF_FALSE` opcode byte (position 8 now holds the offset byte 16, not
26), the compiler emits no header while the VM skips 12 bytes as one, and
the run aborts with a stack-underflow `VMError` at ip 13 — it never
evaluates the first leaf, never jumps, and reaches no failure target. -/
theorem C1_thm :
    CompileGo c1ctx [c1rule] = .ok c1bytes ∧
    c1bytes.get? 8 = some 16 ∧ (16 : Nat) ≠ JUMP_IF_FALSE ∧
    vmRun 50 c1bytes [("a", .vmInt 10)] = .errVM "pop from an empty stack" 13 := by
  refine ⟨by decide, by decide, by decide, by decide⟩

/-- C2: the claim says the compiler writes each pending jump's operand as
little-endian 16 bits of `label_offset − (operand_position + 2)` and the
VM adds the decoded offset to the position after the 2-byte field.  On
`c1rule` the first pending jump (instruction 3, opcode byte at position 8,
operand bytes at 9–10) targets `rule_end_1` at offset 26: the claim wants
`26 − (9 + 2) = 15` in bytes 9–10, but the compiler wrote its value at the
opcode position instead, leaving `0, 0` there and destroying the opcode;
and on a hand-built `JUMP` with operand bytes `2, 0` the claimed relative
semantics would run off the end and stop cleanly, while the VM decodes a
varint and assigns it to `ip` absolutely, ending in an error. -/
theorem C2_thm :
    (compileRulesLoop c1ctx newCompilerState [c1rule]).map
        (fun s => (s.jumpsNeedingLabels.get? 0, s.instructions.get? 3,
                   s.labelOffsets.lookup "rule_end_1")) =
      .ok (some (3, "rule_end_1"), some ⟨JUMP_IF_FALSE, [0, 0], 8⟩, some 26) ∧
    CompileGo c1ctx [c1rule] = .ok c1bytes ∧
    ¬ (c1bytes.get? 9 = some 15 ∧ c1bytes.get? 10 = some 0) ∧
    c1bytes.get? 8 ≠ some JUMP_IF_FALSE ∧
    vmRun 50 c2vmprog [] ≠ .ok := by
  refine ⟨by decide, by decide, by decide, by decide, by decide⟩

/-- C3: the claim says optimize-then-compile is deterministic (byte-identical
output for the same input and fact-index insertion order).  `mergeRules`
rebuilds the rule slice by ranging over a Go map, whose iteration order is
unspecified and randomized between runs; for two equal-priority rules with
distinct signatures the stable priority sort preserves whichever order the
map produced, and the two legitimate orders compile to different bytes. -/
theorem C3_thm :
    List.Perm [0, 1] (List.range 2) ∧ List.Perm [1, 0] (List.range 2) ∧
    CompileGo c1ctx (optimizeGoM [0, 1] [ruleEqPrioA, ruleEqPrioB]) ≠
      CompileGo c1ctx (optimizeGoM [1, 0] [ruleEqPrioA, ruleEqPrioB]) := by
  refine ⟨by decide, by decide, by decide⟩

/-- C7 (counterexample): a `LOAD_FACT` naming a fact absent from the fact
map makes `VM.Run` return the bare `fmt.Errorf("undefined fact: %s", …)` —
an error value that is not the structured `VMError` and carries no `ip`,
refuting the claim for the unresolved-fact case. -/
theorem C7_cex :
    vmRun 50 c7missing [] = .errPlain "undefined fact: " ∧
    ∀ msg ip, vmRun 50 c7missing [] ≠ .errVM msg ip := by
  refine ⟨by decide, ?_⟩
  intro msg ip h
  rw [show vmRun 50 c7missing [] = .errPlain "undefined fact: " from by decide] at h
  exact VmOutcome.noConfusion h

/-- C7 (amended): an unknown opcode and a stack underflow halt the VM with
a structured `VMError` carrying the current `ip`; an unresolved fact
reference halts with a plain formatted error that carries no `ip`; and a
stack-top type mismatch in a typed opcode's assertion panics (re-raised by
the `recover` block as a `VMError` panic) instead of returning — shown on
the `AND` handler applied to two ints. -/
theorem C7_thm :
    vmRun 50 c7unknown [] = .errVM "unknown opcode: 40" 13 ∧
    vmRun 50 c7underflow [] = .errVM "pop from an empty stack" 13 ∧
    vmRun 50 c7missing [] = .errPlain "undefined fact: " ∧
    vmBinaryOp { bytecode := [], ip := 5, stack := [.vmInt 1, .vmInt 2], facts := [] }
      (opBoolBin (· && ·)) = .error (.panicked "interface conversion" 5) := by
  refine ⟨by decide, by decide, by decide, by decide⟩

/-- C10: there is a bytecode array — twelve (unvalidated) header bytes and
a `JUMP` whose decoded operand is 0, at or before the jump's own position
12 — on which the interpreter loop never terminates: the `JUMP` handler
assigns the operand to `ip` unconditionally, the byte at position 0 is
again a `JUMP` whose decode also yields 0, and the machine steps from that
state back to itself forever, exhausting any amount of fuel. -/
theorem C10_thm : ∀ fuel, vmRun fuel c10prog [] = .fuelOut := by
  have h0 : ∀ n, vmRunAux (n + 1)
      { bytecode := c10prog, ip := 0, stack := [], facts := [] } =
      vmRunAux n { bytecode := c10prog, ip := 0, stack := [], facts := [] } :=
    fun n => rfl
  have hloop : ∀ n, vmRunAux n
      { bytecode := c10prog, ip := 0, stack := [], facts := [] } = .fuelOut := by
    intro n
    induction n with
    | zero => rfl
    | succ m ih => rw [h0 m]; exact ih
  intro fuel
  cases fuel with
  | zero => rfl
  | succ n =>
    have h12 : vmRun (n + 1) c10prog [] =
        vmRunAux n { bytecode := c10prog, ip := 0, stack := [], facts := [] } := rfl
    rw [h12]
    exact hloop n

end Rex

namespace Rex

/-! ## The legacy bytecode compiler (`internal/preprocessor/bytecode/compiler.go`)

The older draft: instructions carry varint/null-terminated operands, rules
end in `HALT`, the per-rule `JUMP_IF_FALSE` is patched to a 4-byte
instruction-count offset, and `Compile` prepends the 12-byte header built
by `generateHeader`.  Its `resolveLabelOffsets` looks label names up from
the raw operand bytes of every jump, so any rule that emits a jump panics
(`undefined label`); the only artifact this `Compile` completes is the one
for an empty rule list.  The write-only `instructionOffsets` map is
omitted (nothing reads it). -/

/-- The legacy `Instruction` (no position field). -/
structure OldInstr where
  opcode : Nat
  operands : List Nat
deriving DecidableEq, Repr

/-- The legacy `Compiler` state. -/
structure OldState where
  instructions : List OldInstr
  labelOffsets : List (String × Nat)
deriving DecidableEq, Repr

/-- Models `binary.PutUvarint`, fuelled structurally (10 groups cover 64 bits). -/
def uvarintEncAux : Nat → Nat → List Nat
  | 0, _ => []
  | fuel + 1, x => if x < 0x80 then [x] else (x % 0x80 + 0x80) :: uvarintEncAux fuel (x / 0x80)

def uvarintEnc (x : Nat) : List Nat := uvarintEncAux 10 x

/-- Models `binary.PutVarint` (zig-zag): `2x` for `x ≥ 0`, `2·|x| − 1` below. -/
def varintEnc (n : Int) : List Nat :=
  uvarintEnc (if 0 ≤ n then (2 * n).toNat else (2 * (-n) - 1).toNat)

/-- A value passed to the legacy `emit` (the `interface{}` operand list);
the `uint`/`uint64`/`[]byte` cases of `encodeOperands` have no call site
and are omitted. -/
inductive EncOp where
  | eInt (n : Int)
  | eInt64 (n : Int)
  | eStr (s : String)
  | eF64 (n : Int)
  | eBool (b : Bool)
deriving DecidableEq, Repr

/-- Legacy `encodeOperands`: varints for ints, null-terminated bytes for strings,
8 little-endian bytes for floats, one byte for bools. -/
def encodeOperands (ops : List EncOp) : List Nat :=
  ops.foldl
    (fun acc op =>
      acc ++
        match op with
        | .eInt n => varintEnc n
        | .eInt64 n => varintEnc n
        | .eStr s => strBytes s ++ [0]
        | .eF64 n => le64 (f64bitsOfInt n)
        | .eBool b => [if b then 1 else 0])
    []

/-- The legacy `emit`. -/
def emitOld (s : OldState) (opcode : Nat) (ops : List EncOp) : OldState :=
  { s with instructions := s.instructions ++ [⟨opcode, encodeOperands ops⟩] }

/-- The `LABEL` pseudo-opcode (position 36 in the enumeration). -/
def LABEL : Nat := 36

/-- The legacy `emitLabel`: records the instruction index and emits a
`LABEL` instruction whose operands are the (null-terminated) label bytes. -/
def emitLabelOld (s : OldState) (label : String) : OldState :=
  emitOld { s with labelOffsets := (label, s.instructions.length) :: s.labelOffsets }
    LABEL [.eStr label]

/-- The legacy `compileValue`. -/
def compileValueOld (s : OldState) (value : GoValue) (valueType : String) :
    Except String OldState :=
  if valueType = "int" then
    match value with
    | .vInt v => .ok (emitOld s LOAD_CONST_INT [.eInt v])
    | .vFloat v => .ok (emitOld s LOAD_CONST_INT [.eInt64 v])
    | _ => .error "unsupported value type"
  else if valueType = "float" then
    match value with
    | .vFloat v => .ok (emitOld s LOAD_CONST_FLOAT [.eF64 v])
    | _ => .error "panic: interface conversion"
  else if valueType = "string" then
    match value with
    | .vStr v => .ok (emitOld s LOAD_CONST_STRING [.eStr v])
    | _ => .error "panic: interface conversion"
  else if valueType = "bool" then
    match value with
    | .vBool v => .ok (emitOld s LOAD_CONST_BOOL [.eBool v])
    | _ => .error "panic: interface conversion"
  else .error ("unsupported value type: " ++ valueType)

/-- The legacy `compileCondition`: `LOAD_FACT <name>`, the constant
(emitted twice — once by `compileValue` and once by the value switch),
then a comparison opcode; int, float and bool all reuse the `*_INT`
comparison opcodes. -/
def compileConditionOld (s : OldState) (c : Condition) : Except String OldState :=
  let s1 := emitOld s LOAD_FACT [.eStr c.fact]
  match compileValueOld s1 c.value c.valueType with
  | .error e => .error e
  | .ok s2 =>
    let constEmitted : Except String OldState :=
      if c.valueType = "int" then
        match c.value with
        | .vFloat v => .ok (emitOld s2 LOAD_CONST_INT [.eInt64 v])
        | _ => .error "invalid value for int type"
      else if c.valueType = "float" then
        match c.value with
        | .vFloat v => .ok (emitOld s2 LOAD_CONST_FLOAT [.eF64 v])
        | _ => .error "invalid value for float type"
      else if c.valueType = "string" then
        match c.value with
        | .vStr v => .ok (emitOld s2 LOAD_CONST_STRING [.eStr v])
        | _ => .error "invalid value for string type"
      else if c.valueType = "bool" then
        match c.value with
        | .vBool v => .ok (emitOld s2 LOAD_CONST_BOOL [.eBool v])
        | _ => .error "invalid value for bool type"
      else .error ("unsupported value type: " ++ c.valueType)
    match constEmitted with
    | .error e => .error e
    | .ok s3 =>
      if c.valueType = "int" ∨ c.valueType = "float" then
        if c.operator = "equal" then .ok (emitOld s3 EQ_INT [])
        else if c.operator = "notEqual" then .ok (emitOld s3 NEQ_INT [])
        else if c.operator = "lessThan" then .ok (emitOld s3 LT_INT [])
        else if c.operator = "lessThanOrEqual" then .ok (emitOld s3 LTE_INT [])
        else if c.operator = "greaterThan" then .ok (emitOld s3 GT_INT [])
        else if c.operator = "greaterThanOrEqual" then .ok (emitOld s3 GTE_INT [])
        else .error ("unsupported operator: " ++ c.operator)
      else if c.valueType = "string" then
        if c.operator = "equal" then .ok (emitOld s3 EQ_STRING [])
        else if c.operator = "notEqual" then .ok (emitOld s3 NEQ_STRING [])
        else .error ("unsupported operator for string type: " ++ c.operator)
      else if c.valueType = "bool" then
        if c.operator = "equal" then .ok (emitOld s3 EQ_INT [])
        else if c.operator = "notEqual" then .ok (emitOld s3 NEQ_INT [])
        else .error ("unsupported operator for bool type: " ++ c.operator)
      else .error ("unsupported value type: " ++ c.valueType)

/-- The legacy `compileConditionList`: conditions joined by the logical
opcode between consecutive entries. -/
def compileConditionListOld (s : OldState) (conditions : List Condition) (logicalOp : Nat) :
    Except String OldState :=
  match conditions with
  | [] => .ok s
  | [c] => compileConditionOld s c
  | c :: rest =>
    match compileConditionOld s c with
    | .error e => .error e
    | .ok s1 => compileConditionListOld (emitOld s1 logicalOp []) rest logicalOp

/-- The legacy `compileConditions`: the `all` list under `AND`, then the
`any` list under `OR`. -/
def compileConditionsOld (s : OldState) (conditions : Conditions) : Except String OldState :=
  match compileConditionListOld s conditions.all AND with
  | .error e => .error e
  | .ok s1 => compileConditionListOld s1 conditions.any OR

/-- The value switch shared by both legacy action cases. -/
def compileActionValueOld (s : OldState) (value : GoValue) : Except String OldState :=
  match value with
  | .vInt v => .ok (emitOld s LOAD_CONST_INT [.eInt64 v])
  | .vInt64 v => .ok (emitOld s LOAD_CONST_INT [.eInt64 v])
  | .vFloat v => .ok (emitOld s LOAD_CONST_FLOAT [.eF64 v])
  | .vStr v => .ok (emitOld s LOAD_CONST_STRING [.eStr v])
  | .vBool v => .ok (emitOld s LOAD_CONST_BOOL [.eBool v])

/-- The legacy `compileAction`. -/
def compileActionOld (s : OldState) (a : Action) : Except String OldState :=
  if a.type = "updateFact" then
    compileActionValueOld (emitOld s UPDATE_FACT [.eStr a.target]) a.value
  else if a.type = "sendMessage" then
    compileActionValueOld (emitOld s SEND_MESSAGE [.eStr a.target]) a.value
  else .error ("unsupported action type: " ++ a.type)

/-- The legacy `compileActions`. -/
def compileActionsOld (s : OldState) (actions : List Action) : Except String OldState :=
  match actions with
  | [] => .ok s
  | a :: rest =>
    match compileActionOld s a with
    | .error e => .error e
    | .ok s1 => compileActionsOld s1 rest

/-- 2 little-endian bytes of `uint16(n)`. -/
def le16n (n : Nat) : List Nat := [n % 256, n / 256 % 256]

/-- 4 little-endian bytes of `uint32(n)`. -/
def le32n (n : Nat) : List Nat :=
  [n % 256, n / 256 % 256, n / 65536 % 256, n / 16777216 % 256]

/-- The legacy `compileRule`: start label, conditions, a `JUMP_IF_FALSE`
whose operand is later overwritten with 4 little-endian bytes of the
instruction-count distance to the rule's `HALT`, the actions, `HALT`. -/
def compileRuleOld (s : OldState) (rule : Rule) : Except String OldState :=
  let s1 := emitLabelOld s ("rule_" ++ rule.name ++ "_start")
  match compileConditionsOld s1 rule.conditions with
  | .error e => .error e
  | .ok s2 =>
    let jumpIfFalseOffset := s2.instructions.length
    let s3 := emitOld s2 JUMP_IF_FALSE [.eInt 0]
    match compileActionsOld s3 rule.event.actions with
    | .error e => .error e
    | .ok s4 =>
      let s5 := emitOld s4 HALT []
      let jumpOffset := s5.instructions.length - jumpIfFalseOffset - 1
      .ok { s5 with
        instructions :=
          s5.instructions.set jumpIfFalseOffset ⟨JUMP_IF_FALSE, le32n jumpOffset⟩ }

/-- Pass 1 of the legacy `resolveLabelOffsets`: drop `LABEL` instructions,
recording `string(operands)` (terminator byte included) at the current
byte position; flatten everything else. -/
def resolvePass1 (instructions : List OldInstr) : List Nat × List (String × Nat) :=
  instructions.foldl
    (fun st inst =>
      if inst.opcode = LABEL then (st.1, (strOfBytes inst.operands, st.1.length) :: st.2)
      else (st.1 ++ inst.opcode :: inst.operands, st.2))
    ([], [])

/-- Pass 2: every jump's raw operand bytes are read back as a label name
and looked up; a miss is a Go `panic`.  The subsequent
`replaceOperandAtOffset` mutates only the instruction list, never the
bytecode built in pass 1, so a successful pass 2 has no effect on the
output. -/
def resolvePass2 (labelMap : List (String × Nat)) (instructions : List OldInstr) :
    Except String Unit :=
  match instructions with
  | [] => .ok ()
  | inst :: rest =>
    if inst.opcode = JUMP ∨ inst.opcode = JUMP_IF_TRUE ∨ inst.opcode = JUMP_IF_FALSE then
      match labelMap.lookup (strOfBytes inst.operands) with
      | none => .error "panic: undefined label"
      | some _ => resolvePass2 labelMap rest
    else resolvePass2 labelMap rest

/-- The legacy `resolveLabelOffsets`. -/
def resolveLabelOffsetsOld (s : OldState) : Except String (List Nat) :=
  let p := resolvePass1 s.instructions
  match resolvePass2 p.2 s.instructions with
  | .error e => .error e
  | .ok _ => .ok p.1

/-- One step of the reflected CRC-32 (polynomial `0xEDB88320`). -/
def crc32Step (crc : Nat) : Nat :=
  if crc % 2 = 1 then crc / 2 ^^^ 0xEDB88320 else crc / 2

/-- Fold one byte into the register (8 shift steps). -/
def crc32Byte (crc b : Nat) : Nat :=
  crc32Step (crc32Step (crc32Step (crc32Step
    (crc32Step (crc32Step (crc32Step (crc32Step (crc ^^^ b))))))))

/-- Go `crc32.ChecksumIEEE`. -/
def crc32IEEE (data : List Nat) : Nat :=
  0xFFFFFFFF ^^^ data.foldl crc32Byte 0xFFFFFFFF

/-- The legacy `generateHeader`: 12 bytes — version 1, a zero checksum
placeholder, the rule count and the body size, all little-endian; the
checksum is then computed over those same 12 placeholder bytes (not over
the body, which does not exist yet) and copied into bytes 2–5. -/
def generateHeaderGo (numRules bytecodeSize : Nat) : List Nat :=
  let placeholder := le16n 1 ++ le32n 0 ++ le16n numRules ++ le32n bytecodeSize
  let checksum := crc32IEEE placeholder
  le16n 1 ++ le32n checksum ++ le16n numRules ++ le32n bytecodeSize

/-- The legacy `Compile` loop. -/
def compileRulesLoopOld (s : OldState) (rules : List Rule) : Except String OldState :=
  match rules with
  | [] => .ok s
  | r :: rest =>
    match compileRuleOld s r with
    | .error e => .error e
    | .ok s1 => compileRulesLoopOld s1 rest

/-- The legacy `Compiler.Compile`: rules, label resolution, header in
front of the body. -/
def CompileOld (rules : List Rule) : Except String (List Nat) :=
  match compileRulesLoopOld ⟨[], []⟩ rules with
  | .error e => .error e
  | .ok s =>
    match resolveLabelOffsetsOld s with
    | .error e => .error e
    | .ok bytecode => .ok (generateHeaderGo rules.length bytecode.length ++ bytecode)

/-- Read 4 little-endian bytes at `pos` (the checksum field sits at 2). -/
def le32At (l : List Nat) (pos : Nat) : Nat :=
  (l.get? pos).getD 0 + 256 * (l.get? (pos + 1)).getD 0 +
  65536 * (l.get? (pos + 2)).getD 0 + 16777216 * (l.get? (pos + 3)).getD 0

/-- The 12-byte artifact of `CompileOld []` — the only input the legacy
compiler completes on (every rule emits a `JUMP_IF_FALSE` whose patched
operand bytes fail the label lookup of pass 2). -/
def c5artifact : List Nat := [1, 0, 0, 138, 112, 224, 0, 0, 0, 0, 0, 0]

set_option maxRecDepth 20000 in
/-- C5: the claim says the header checksum field is the CRC-32 IEEE of
the bytecode body (everything after the header).  It is not:
`generateHeader` checksums the 12 header bytes themselves, with the
checksum field still zero, before any body exists.  On the empty rule
document — the only input `Compile` completes on — the emitted artifact
carries checksum `0xE0708A00`, the CRC-32 of the placeholder header,
while the CRC-32 of the (empty) body is `0`. -/
theorem C5_thm :
    CompileOld [] = .ok c5artifact ∧
    le32At c5artifact 2 = crc32IEEE (le16n 1 ++ le32n 0 ++ le16n 0 ++ le32n 0) ∧
    le32At c5artifact 2 ≠ crc32IEEE (c5artifact.drop 12) ∧
    (CompileOld [demoRuleX]).isOk = false :=
  ⟨by decide, by decide, by decide, by decide⟩

end Rex
